import Mathlib

/-!
Shallow embedding of the 3dobs model-import core (OBJ/MTL, STL ASCII+binary,
COLLADA resolution, format dispatch) and verification of its stated
invariants.

Modelling conventions:
* Scalar values parsed from text formats (OBJ, ASCII STL, COLLADA float
  arrays) are embedded as rationals; tokenisation of lines into directives is
  abstracted, the directive-level state machines are modelled faithfully.
* Rust's float parsing also accepts NaN and infinity literals, and the f32
  min/max of the AABB accumulation treat NaN specially; where that matters a
  second, NaN-aware scalar domain `XF` (NaN, the infinities, and exact
  rationals) carries the same state machines, with the rational embedding as
  its NaN-free finite fragment.
* Binary STL scalars are kept as their 32-bit little-endian words, since the
  binary reader never does arithmetic on them; the componentwise f32 min/max
  used for the bounding box in that path is threaded as an abstract pair of
  functions, instantiated where needed with the word-level min/max induced by
  exact IEEE-754 decoding (`decodeF32`).
* `glm::normalize` (which needs a square root) is threaded as an abstract
  function argument `nrm`.
* Rust `u32` index arithmetic is modelled as `Nat` reduced modulo `U32`.
* A Rust panic (unwrap on `None`, out-of-bounds index, failed assert,
  arithmetic-overflow abort) is modelled by `none` / `PResult.fault`; a
  `Result::Err` return is modelled by `PResult.err` with its message.
-/

namespace Tdobs

/-- 2-vector of rational scalars (models `glm::Vec2`). -/
structure V2 where
  x : ℚ
  y : ℚ
  deriving DecidableEq, Repr

/-- 3-vector of rational scalars (models `glm::Vec3`). -/
structure V3 where
  x : ℚ
  y : ℚ
  z : ℚ
  deriving DecidableEq, Repr

def V2.sub (a b : V2) : V2 := ⟨a.x - b.x, a.y - b.y⟩

def V3.add (a b : V3) : V3 := ⟨a.x + b.x, a.y + b.y, a.z + b.z⟩

def V3.sub (a b : V3) : V3 := ⟨a.x - b.x, a.y - b.y, a.z - b.z⟩

def V3.smul (c : ℚ) (a : V3) : V3 := ⟨c * a.x, c * a.y, c * a.z⟩

def V3.dot (a b : V3) : ℚ := a.x * b.x + a.y * b.y + a.z * b.z

def V3.cross (a b : V3) : V3 :=
  ⟨a.y * b.z - a.z * b.y, a.z * b.x - a.x * b.z, a.x * b.y - a.y * b.x⟩

/-- Componentwise minimum, the accumulation step used for `min_aabb` by every
parser (`f32::min` / `glm::min` componentwise) on the NaN-free scalar
fragment embedded by `ℚ`; the NaN-aware behaviour of the same operation
(`f32::min` returns the other operand on NaN) is `fminX` below. -/
def compMin (a b : V3) : V3 := ⟨min a.x b.x, min a.y b.y, min a.z b.z⟩

/-- Componentwise maximum, the accumulation step used for `max_aabb` on the
NaN-free fragment; NaN-aware counterpart `fmaxX` below. -/
def compMax (a b : V3) : V3 := ⟨max a.x b.x, max a.y b.y, max a.z b.z⟩

/-- Componentwise order on 3-vectors. -/
def V3.le (a b : V3) : Prop := a.x ≤ b.x ∧ a.y ≤ b.y ∧ a.z ≤ b.z

instance (a b : V3) : Decidable (V3.le a b) := by unfold V3.le; infer_instance

/-- Exact value of `f32::MAX`, the sentinel initial `min_aabb` component. -/
def f32Max : ℚ := 340282346638528859811704183484516925440

/-- Exact value of `f32::MIN`, the sentinel initial `max_aabb` component. -/
def f32Min : ℚ := -340282346638528859811704183484516925440

/-- Sentinel initial `min_aabb` corner `vec3(f32::MAX, f32::MAX, f32::MAX)`. -/
def sentinelMin : V3 := ⟨f32Max, f32Max, f32Max⟩

/-- Sentinel initial `max_aabb` corner `vec3(f32::MIN, f32::MIN, f32::MIN)`. -/
def sentinelMax : V3 := ⟨f32Min, f32Min, f32Min⟩

/-- Modulus of Rust `u32` arithmetic. -/
def U32 : ℕ := 4294967296

/-- Result of a fallible Rust call site: normal return, a `Result::Err` value
with its message, or a panic (process abort). -/
inductive PResult (α : Type) where
  | ok (a : α)
  | err (msg : String)
  | fault
  deriving DecidableEq, Repr

/-- Lift an `Option` (where `none` models a panic) into `PResult`. -/
def PResult.ofOption {α : Type} : Option α → PResult α
  | some a => .ok a
  | none => .fault

/-- Discriminator for the normal-return case. -/
def PResult.isOk {α : Type} : PResult α → Bool
  | .ok _ => true
  | _ => false

/-- Material data (`importer::Material`); GPU texture handles are external
collaborators and are not modelled. -/
structure Material where
  name : String
  ambientColor : V3
  diffuseColor : V3
  specularColor : V3
  specularExponent : ℚ
  opacity : ℚ
  deriving DecidableEq, Repr

/-- The `Material::default()` value used by the STL paths. -/
def Material.defaultMat : Material :=
  ⟨"default_mat", ⟨2/5, 2/5, 2/5⟩, ⟨7/10, 7/10, 7/10⟩, ⟨1/10, 1/10, 1/10⟩, 32, 1⟩

/-- Vertex as pushed by the STL and COLLADA paths (`mesh::Vertex`):
position, normal, texture coordinates. -/
structure Vertex where
  position : V3
  normal : V3
  texCoords : V2
  deriving DecidableEq, Repr

/-- Vertex as pushed by the OBJ path, which additionally accumulates a
tangent/bitangent basis. -/
structure ObjVertex where
  position : V3
  normal : V3
  texCoords : V2
  tangent : V3
  bitangent : V3
  deriving DecidableEq, Repr

def objVertexZero : ObjVertex := ⟨⟨0,0,0⟩, ⟨0,0,0⟩, ⟨0,0⟩, ⟨0,0,0⟩, ⟨0,0,0⟩⟩

/-- Sub-mesh (`importer::ObjMesh`), generic over the vertex payload. -/
structure ObjMesh (V : Type) where
  name : String
  vertices : List V
  indices : List ℕ
  material : Option Material
  deriving DecidableEq, Repr

/-- Axis-aligned bounding box corners (`aabb::AABB`; the GL buffer fields are
rendering-layer state and are not modelled). -/
structure AABB where
  min : V3
  max : V3
  deriving DecidableEq, Repr

/-- A parsed object (`importer::Object`). -/
structure Object (V : Type) where
  name : String
  meshes : List (ObjMesh V)
  aabb : AABB
  deriving DecidableEq, Repr

/-- The Sub-mesh invariant of the spec: the index count is a multiple of 3 and
every index is strictly below the vertex count. -/
def meshInv {V : Type} (m : ObjMesh V) : Prop :=
  m.indices.length % 3 = 0 ∧ ∀ ix ∈ m.indices, ix < m.vertices.length

/-- The AABB invariant of the spec for an object with at least one vertex:
min ≤ max componentwise and every vertex position lies inside the box. -/
def aabbInv {V : Type} (pos : V → V3) (o : Object V) : Prop :=
  (∃ m ∈ o.meshes, m.vertices ≠ []) →
    (V3.le o.aabb.min o.aabb.max ∧
     ∀ m ∈ o.meshes, ∀ v ∈ m.vertices,
       V3.le o.aabb.min (pos v) ∧ V3.le (pos v) o.aabb.max)

/-! Generic iteration helpers.  A Rust `for` loop whose body can panic or
early-return an error is modelled as a fold in the `Option` monad; a loop
pushing one element per item is modelled as a map in the `Option` monad. -/

/-- Left fold in the `Option` monad; `none` (a panic / early `Err`) aborts. -/
def foldOpt {σ α : Type} (f : σ → α → Option σ) : σ → List α → Option σ
  | s, [] => some s
  | s, a :: l =>
    match f s a with
    | none => none
    | some s' => foldOpt f s' l

/-- Elementwise map in the `Option` monad. -/
def mapOpt {α β : Type} (f : α → Option β) : List α → Option (List β)
  | [] => some []
  | a :: l =>
    match f a with
    | none => none
    | some b =>
      match mapOpt f l with
      | none => none
      | some l' => some (b :: l')

/-- Full groups of `k` consecutive elements, remainder discarded (models
`slice::chunks_exact`, which yields `len / k` chunks of `k` consecutive
elements; all call sites have `k ≥ 1`). -/
def chunksE {α : Type} (k : ℕ) (l : List α) : List (List α) :=
  if k = 0 then []
  else (List.range (l.length / k)).map fun i => (l.drop (k * i)).take k

/-- Groups of 3 rationals as 3-vectors (`chunks_exact(3)` + `glm::vec3`). -/
def chunks3 : List ℚ → List V3
  | a :: b :: c :: l => ⟨a, b, c⟩ :: chunks3 l
  | _ => []

/-- Groups of 2 rationals as 2-vectors (`chunks_exact(2)` + `glm::vec2`). -/
def chunks2 : List ℚ → List V2
  | a :: b :: l => ⟨a, b⟩ :: chunks2 l
  | _ => []

/-! OBJ parser embedding (`importer/obj.rs::load_obj`).

The input is the sequence of significant lines, already tokenised: numeric
literals are carried as rationals and face corner references as integers.
Material libraries referenced by `mtllib` are opened and parsed through the
filesystem; that external input is abstracted by carrying the parse result
(name/material pairs, in merge order) on the directive itself. -/

/-- One corner reference of an `f` directive, in one of the four source
syntaxes `v`, `v/vt`, `v/vt/vn`, `v//vn`. -/
inductive FaceRef where
  | v (vi : ℤ)
  | vt (vi ti : ℤ)
  | vtn (vi ti ni : ℤ)
  | vvn (vi ni : ℤ)
  deriving DecidableEq, Repr

/-- The vertex-position reference of a corner (first `/`-separated field). -/
def FaceRef.vref : FaceRef → ℤ
  | .v vi => vi
  | .vt vi _ => vi
  | .vtn vi _ _ => vi
  | .vvn vi _ => vi

/-- A significant OBJ line, selected by its first token. -/
inductive ObjLine where
  | o (name : Option String)
  | g (name : Option String)
  | v (x y z : ℚ)
  | vn (x y z : ℚ)
  | vt (u w : ℚ)
  | f (corners : List FaceRef)
  | mtllib (mats : List (String × Material))
  | usemtl (name : Option String)
  | pLine
  | lLine
  | sLine
  | unknown

/-- Parser state of `load_obj`'s line loop. -/
structure ObjState where
  objectName : String
  currentMeshName : String
  tempVertices : List V3
  vertices : List ObjVertex
  normals : List V3
  texCoords : List V2
  indicesCounter : ℕ
  indices : List ℕ
  meshes : List (ObjMesh ObjVertex)
  materials : String → Option Material
  currentMaterial : Option Material
  minAabb : V3
  maxAabb : V3

def initObjState : ObjState :=
  { objectName := ""
    currentMeshName := ""
    tempVertices := []
    vertices := []
    normals := []
    texCoords := []
    indicesCounter := 0
    indices := []
    meshes := []
    materials := fun _ => none
    currentMaterial := none
    minAabb := sentinelMin
    maxAabb := sentinelMax }

/-- Conversion of a 1-based (or negative, relative-from-end) reference to the
0-based index actually used: `if r < 0 { len + r } else { r - 1 }`. -/
def resolveRef (len : ℕ) (r : ℤ) : ℤ :=
  if r < 0 then (len : ℤ) + r else r - 1

/-- Indexing a pool at a possibly negative resolved index.  A negative value
cast `as usize` wraps far beyond any pool length, so `.get(..).unwrap()`
panics; an in-range value succeeds. -/
def fetch {α : Type} (pool : List α) (i : ℤ) : Option α :=
  if 0 ≤ i then pool.get? i.toNat else none

/-- Indexing used by the face-normal fallback: `r as usize - 1` without any
negative handling, so only `r ≥ 1` can succeed. -/
def fetchPos1 (pool : List V3) (r : ℤ) : Option V3 :=
  if 1 ≤ r then pool.get? (r - 1).toNat else none

/-- Fallback face normal: when no `vn` has been seen the normal is the
normalised cross product of the first two edges of the first three corners;
otherwise the placeholder zero vector is kept. -/
def faceCalcNormal (nrm : V3 → V3) (tempVertices normals : List V3)
    (corners : List FaceRef) : Option V3 :=
  if normals.isEmpty then
    match corners with
    | c0 :: c1 :: c2 :: _ =>
      match fetchPos1 tempVertices c0.vref, fetchPos1 tempVertices c1.vref,
          fetchPos1 tempVertices c2.vref with
      | some p0, some p1, some p2 =>
        some (nrm (V3.cross (p1.sub p0) (p2.sub p0)))
      | _, _, _ => none
    | _ => none
  else some ⟨0, 0, 0⟩

/-- Build the vertex pushed for one face corner (pool lookups panic on a bad
reference, modelled by `none`). -/
def faceVertex (tempVertices normals : List V3) (texCoords : List V2)
    (calcNormal : V3) : FaceRef → Option ObjVertex
  | .v vi => do
    let p ← fetch tempVertices (resolveRef tempVertices.length vi)
    some ⟨p, calcNormal, ⟨0, 0⟩, ⟨0, 0, 0⟩, ⟨0, 0, 0⟩⟩
  | .vt vi ti => do
    let p ← fetch tempVertices (resolveRef tempVertices.length vi)
    let t ← fetch texCoords (resolveRef texCoords.length ti)
    some ⟨p, calcNormal, t, ⟨0, 0, 0⟩, ⟨0, 0, 0⟩⟩
  | .vtn vi ti ni => do
    let p ← fetch tempVertices (resolveRef tempVertices.length vi)
    let t ← fetch texCoords (resolveRef texCoords.length ti)
    let n ← fetch normals (resolveRef normals.length ni)
    some ⟨p, n, t, ⟨0, 0, 0⟩, ⟨0, 0, 0⟩⟩
  | .vvn vi ni => do
    let p ← fetch tempVertices (resolveRef tempVertices.length vi)
    let n ← fetch normals (resolveRef normals.length ni)
    some ⟨p, n, ⟨0, 0⟩, ⟨0, 0, 0⟩, ⟨0, 0, 0⟩⟩

/-- Index triples pushed while triangulating one `n`-corner face: corner `i`
contributes `(counter, counter + i + 1, counter + i + 2)` while
`i < n - 2`, in `u32` arithmetic. -/
def faceIndices (counter n : ℕ) : List ℕ :=
  (List.range (n - 2)).bind fun i =>
    [counter, (counter + i % U32 + 1) % U32, (counter + i % U32 + 2) % U32]

/-- Add a tangent/bitangent contribution to the vertex at `i` (all call sites
are in bounds; the source indexes the vector directly). -/
def updTB (vs : List ObjVertex) (i : ℕ) (t b : V3) : List ObjVertex :=
  match vs.get? i with
  | some w => vs.set i { w with tangent := w.tangent.add t, bitangent := w.bitangent.add b }
  | none => vs

/-- One iteration of the per-face tangent loop: triangle `i` of the fan reads
its three vertices, derives a tangent/bitangent from edge vectors and UV
deltas, and accumulates them into all three vertices.  Rational division is
total (`1/0 = 0`) where f32 division would produce an infinity; no claim
depends on the accumulated values. -/
def tangentStep (nrm : V3 → V3) (counter : ℕ) (vs : List ObjVertex) (i : ℕ) :
    List ObjVertex :=
  let idx1 := counter
  let idx2 := counter + i + 1
  let idx3 := counter + i + 2
  let vert1 := vs.getD idx1 objVertexZero
  let vert2 := vs.getD idx2 objVertexZero
  let vert3 := vs.getD idx3 objVertexZero
  let edge1 := vert2.position.sub vert1.position
  let edge2 := vert3.position.sub vert1.position
  let deltaUV1 := vert2.texCoords.sub vert1.texCoords
  let deltaUV2 := vert3.texCoords.sub vert1.texCoords
  let f := 1 / (deltaUV1.x * deltaUV2.y - deltaUV2.x * deltaUV1.y)
  let tempTangent : V3 :=
    ⟨f * (deltaUV2.y * edge1.x - deltaUV1.y * edge2.x),
     f * (deltaUV2.y * edge1.y - deltaUV1.y * edge2.y),
     f * (deltaUV2.y * edge1.z - deltaUV1.y * edge2.z)⟩
  let tangent := nrm (tempTangent.sub (V3.smul (V3.dot vert1.normal tempTangent) vert1.normal))
  let bitangent := V3.cross vert1.normal tangent
  updTB (updTB (updTB vs idx1 tangent bitangent) idx2 tangent bitangent) idx3 tangent bitangent

/-- The whole per-face tangent loop, `for i in 0..n - 2`. -/
def tangentPass (nrm : V3 → V3) (counter n : ℕ) (vs : List ObjVertex) :
    List ObjVertex :=
  (List.range (n - 2)).foldl (tangentStep nrm counter) vs

/-- Processing one `f` directive.  A face of fewer than 2 corners always
aborts (index panic or `usize` underflow abort); with no normals seen yet a
face additionally needs 3 corners for the fallback-normal computation.  The
source interleaves vertex and index pushes per corner and then runs the
tangent loop; the resulting buffers are assembled here in the same order. -/
def objFaceStep (nrm : V3 → V3) (st : ObjState) (corners : List FaceRef) :
    Option ObjState :=
  if corners.length < 2 then none
  else
    match faceCalcNormal nrm st.tempVertices st.normals corners with
    | none => none
    | some calcNormal =>
      match mapOpt (faceVertex st.tempVertices st.normals st.texCoords calcNormal) corners with
      | none => none
      | some newVerts =>
        let vs := tangentPass nrm st.indicesCounter corners.length (st.vertices ++ newVerts)
        some { st with
          vertices := vs
          indices := st.indices ++ faceIndices st.indicesCounter corners.length
          indicesCounter := (st.indicesCounter + corners.length % U32) % U32 }

/-- Name given to a Sub-mesh flushed by an `o` or `g` directive. -/
def flushNameOG (st : ObjState) : String :=
  if st.currentMeshName.isEmpty then st.objectName else st.currentMeshName

/-- Name given to a Sub-mesh flushed by `usemtl` or at end of file. -/
def flushNameFinal (st : ObjState) : String :=
  if st.currentMeshName.isEmpty ∧ ¬st.objectName.isEmpty then st.objectName
  else if ¬st.currentMeshName.isEmpty then st.currentMeshName
  else "default_mesh"

/-- Flush of the in-progress buffers into the mesh list, which happens only
when the vertex buffer is non-empty. -/
def flushMeshes (st : ObjState) (name : String) : List (ObjMesh ObjVertex) :=
  if st.vertices.isEmpty then st.meshes
  else st.meshes ++ [⟨name, st.vertices, st.indices, st.currentMaterial⟩]

/-- HashMap-style merge of freshly parsed material libraries into the running
name-to-material map (`materials.extend(m)`); later entries overwrite. -/
def extendMats (m : String → Option Material) (kvs : List (String × Material)) :
    String → Option Material :=
  kvs.foldl (fun acc kv k => if k = kv.1 then some kv.2 else acc k) m

/-- One line of `load_obj`'s dispatch loop. -/
def objStep (nrm : V3 → V3) (st : ObjState) : ObjLine → Option ObjState
  | .o name =>
    some { st with
      meshes := flushMeshes st (flushNameOG st)
      vertices := [], indices := [], indicesCounter := 0
      objectName := name.getD "" }
  | .g name =>
    some { st with
      meshes := flushMeshes st (flushNameOG st)
      vertices := [], indices := [], indicesCounter := 0
      currentMeshName := name.getD "default_mesh" }
  | .v x y z =>
    some { st with
      tempVertices := st.tempVertices ++ [⟨x, y, z⟩]
      minAabb := compMin st.minAabb ⟨x, y, z⟩
      maxAabb := compMax st.maxAabb ⟨x, y, z⟩ }
  | .vn x y z => some { st with normals := st.normals ++ [⟨x, y, z⟩] }
  | .vt u w => some { st with texCoords := st.texCoords ++ [⟨u, 1 - w⟩] }
  | .f corners => objFaceStep nrm st corners
  | .mtllib mats => some { st with materials := extendMats st.materials mats }
  | .usemtl name =>
    some { st with
      meshes := flushMeshes st (flushNameFinal st)
      vertices := [], indices := [], indicesCounter := 0
      currentMaterial := st.materials (name.getD "") }
  | .pLine => some st
  | .lLine => some st
  | .sLine => some st
  | .unknown => some st

/-- The OBJ parser: run the line loop, then flush the remaining buffers into a
final Sub-mesh unconditionally. -/
def load_obj (nrm : V3 → V3) (lines : List ObjLine) : Option (Object ObjVertex) :=
  match foldOpt (objStep nrm) initObjState lines with
  | none => none
  | some st =>
    some { name := st.objectName
           meshes := st.meshes ++
             [⟨flushNameFinal st, st.vertices, st.indices, st.currentMaterial⟩]
           aabb := ⟨st.minAabb, st.maxAabb⟩ }

/-! STL parser embedding (`importer/stl.rs`). -/

/-- A line of an ASCII STL body (everything after the skipped `solid` line),
classified the way `FacetIterator::next` classifies it: by substring
containment of `normal`, `vertex`, `endfacet`, in that order.  Numeric fields
are carried already parsed. -/
inductive StlLine where
  | normalLn (x y z : ℚ)
  | vertexLn (x y z : ℚ)
  | endFacetLn
  | otherLn

/-- Index value pushed for vertex `j` of triangle `k` in both STL paths:
`k as u32 * 3 + j` in `u32` arithmetic. -/
def stlIndex (k j : ℕ) : ℕ := ((k % U32 * 3) % U32 + j) % U32

/-- Accumulator of the fused ASCII facet-iterator and emission loop. -/
structure AsciiAcc where
  curNormal : V3
  curVerts : List V3
  vertices : List Vertex
  indices : List ℕ
  triCount : ℕ
  minAabb : V3
  maxAabb : V3

def initAsciiAcc : AsciiAcc :=
  ⟨⟨0, 0, 0⟩, [], [], [], 0, sentinelMin, sentinelMax⟩

/-- Emission of one completed facet: exactly the first three collected
vertices are taken (`verts_iter.next().unwrap()` thrice, so fewer than three
is a panic), all sharing the facet normal; the AABB accumulates each vertex
and three sequential indices are pushed. -/
def asciiEmit (acc : AsciiAcc) : Option AsciiAcc :=
  match acc.curVerts with
  | a :: b :: c :: _ =>
    some { curNormal := ⟨0, 0, 0⟩
           curVerts := []
           vertices := acc.vertices ++
             [⟨a, acc.curNormal, ⟨0, 0⟩⟩, ⟨b, acc.curNormal, ⟨0, 0⟩⟩, ⟨c, acc.curNormal, ⟨0, 0⟩⟩]
           indices := acc.indices ++
             [stlIndex acc.triCount 0, stlIndex acc.triCount 1, stlIndex acc.triCount 2]
           triCount := acc.triCount + 1
           minAabb := compMin (compMin (compMin acc.minAabb a) b) c
           maxAabb := compMax (compMax (compMax acc.maxAabb a) b) c }
  | _ => none

/-- One scanned line of the ASCII path. -/
def asciiStep (acc : AsciiAcc) : StlLine → Option AsciiAcc
  | .normalLn x y z => some { acc with curNormal := ⟨x, y, z⟩ }
  | .vertexLn x y z => some { acc with curVerts := acc.curVerts ++ [⟨x, y, z⟩] }
  | .endFacetLn => asciiEmit acc
  | .otherLn => some acc

/-- The ASCII STL parser over the lines following the `solid` header line.
A partial facet at end of input is discarded (the iterator returns `None` at
EOF before reaching `endfacet`). -/
def parse_ascii_stl (lines : List StlLine) : Option (Object Vertex) :=
  match foldOpt asciiStep initAsciiAcc lines with
  | none => none
  | some acc =>
    some { name := "default_object"
           meshes := [⟨"default_mesh", acc.vertices, acc.indices, some Material.defaultMat⟩]
           aabb := ⟨acc.minAabb, acc.maxAabb⟩ }

/-! Binary STL.  Scalars stay as 32-bit little-endian words; the input is the
raw byte list of the file. -/

/-- Little-endian 32-bit word from four bytes. -/
def u32le (b0 b1 b2 b3 : ℕ) : ℕ :=
  b0 % 256 + 256 * (b1 % 256) + 65536 * (b2 % 256) + 16777216 * (b3 % 256)

/-- The 32-bit word starting at byte offset `off` of a buffer. -/
def wordAt (buf : List ℕ) (off : ℕ) : ℕ :=
  u32le (buf.getD off 0) (buf.getD (off + 1) 0) (buf.getD (off + 2) 0) (buf.getD (off + 3) 0)

/-- A word-level 3-vector (three f32 bit patterns). -/
abbrev W3 := ℕ × ℕ × ℕ

/-- Vertex of the binary STL path with f32 scalars kept as words. -/
structure BVertex where
  position : W3
  normal : W3
  texCoords : ℕ × ℕ
  deriving DecidableEq, Repr

/-- Normal words of the 50-byte record buffer (bytes 0..12). -/
def recNormal (buf : List ℕ) : W3 := (wordAt buf 0, wordAt buf 4, wordAt buf 8)

/-- The three vertex-position word triples of the record buffer
(bytes 12..48). -/
def recVerts (buf : List ℕ) : W3 × W3 × W3 :=
  ((wordAt buf 12, wordAt buf 16, wordAt buf 20),
   (wordAt buf 24, wordAt buf 28, wordAt buf 32),
   (wordAt buf 36, wordAt buf 40, wordAt buf 44))

/-- Successive states of `TrianglesIter`'s 50-byte buffer.  Each `next()`
call performs a `read_exact` whose error is discarded (`let _ = ...`): the
available prefix of the input overwrites the front of the buffer and the rest
stays stale, and a triangle is emitted from the buffer regardless, until the
declared count is reached. -/
def triBufs (rest buf : List ℕ) : ℕ → List (List ℕ)
  | 0 => []
  | n + 1 =>
    let buf' := rest.take 50 ++ buf.drop (min rest.length 50)
    buf' :: triBufs (rest.drop 50) buf' n

/-- The declared triangle count: the little-endian `u32` at offset 80, read
with a plain `read` into a zero-initialised 4-byte buffer (so a short file
zero-pads). -/
def declaredCount (bytes : List ℕ) : ℕ :=
  let cb := (bytes.drop 80).take 4
  u32le (cb.getD 0 0) (cb.getD 1 0) (cb.getD 2 0) (cb.getD 3 0)

/-- f32::MAX bit pattern, the initial `min_aabb` component of the binary
path. -/
def f32MaxBits : ℕ := 2139095039

/-- f32::MIN bit pattern, the initial `max_aabb` component of the binary
path. -/
def f32MinBits : ℕ := 4286578687

/-- The binary STL parser.  `wmin`/`wmax` abstract componentwise `glm::min` /
`glm::max` on f32 values (floating point left uninterpreted at word level). -/
def parse_binary_stl (wmin wmax : W3 → W3 → W3) (bytes : List ℕ) : Object BVertex :=
  let bufs := triBufs (bytes.drop 84) (List.replicate 50 0) (declaredCount bytes)
  let vertices := bufs.bind fun b =>
    [⟨(recVerts b).1, recNormal b, (0, 0)⟩,
     ⟨(recVerts b).2.1, recNormal b, (0, 0)⟩,
     ⟨(recVerts b).2.2, recNormal b, (0, 0)⟩]
  let indices := (List.range bufs.length).bind fun k =>
    [stlIndex k 0, stlIndex k 1, stlIndex k 2]
  let minW := vertices.foldl (fun m v => wmin m v.position)
    (f32MaxBits, f32MaxBits, f32MaxBits)
  let maxW := vertices.foldl (fun m v => wmax m v.position)
    (f32MinBits, f32MinBits, f32MinBits)
  { name := "default_object"
    meshes := [⟨"default_mesh", vertices, indices, some Material.defaultMat⟩]
    aabb := ⟨⟨(minW.1 : ℚ), (minW.2.1 : ℚ), (minW.2.2 : ℚ)⟩,
             ⟨(maxW.1 : ℚ), (maxW.2.1 : ℚ), (maxW.2.2 : ℚ)⟩⟩ }

/-- Little-endian byte encoding of a `u32` value. -/
def u32bytes (n : ℕ) : List ℕ :=
  [n % 256, n / 256 % 256, n / 65536 % 256, n / 16777216 % 256]

/-! Format dispatcher (`importer/mod.rs::load_from_file` and
`utils.rs::SupportedFileExtensions::from_str`). -/

inductive SupportedFileExtensions where
  | objExt
  | stlExt
  deriving DecidableEq, Repr

/-- Case-insensitive extension recognition (`s.to_ascii_lowercase()` then a
literal match; the ASCII lowering is modelled at character level). -/
def SupportedFileExtensions.from_str (s : String) : Option SupportedFileExtensions :=
  if s.data.map Char.toLower = "obj".data then some .objExt
  else if s.data.map Char.toLower = "stl".data then some .stlExt
  else none

/-- Parser selection of `load_from_file`, over the path's optional extension.
An absent extension hits `path.extension().unwrap()` and an unrecognised one
hits `panic!("Unsupported file extension: ...")`: both are process aborts,
not error returns. -/
def load_from_file (ext : Option String) : PResult SupportedFileExtensions :=
  match ext with
  | none => .fault
  | some e =>
    match SupportedFileExtensions.from_str e with
    | some fmt => .ok fmt
    | none => .fault

/-! COLLADA resolution embedding (`importer/collada.rs`).  Phase 1 (the XML
document parse into the typed tree) is performed by the `hard-xml` derive
machinery; the embedding starts from that typed tree, with flat numeric
payloads carried already tokenised, and models phase 2 (resolution into the
canonical object) faithfully. -/

inductive InputSemantic where
  | position
  | normal
  | texcoord
  | otherSem
  deriving DecidableEq, Repr

/-- An unshared input of the `<vertices>` element (`attr_source` keeps its
leading `#`, which resolution strips with `[1..]`). -/
structure InputUnshared where
  semantic : InputSemantic
  source : String
  deriving DecidableEq, Repr

/-- A shared input of a primitive element, carrying its stride offset. -/
structure InputShared where
  semantic : InputSemantic
  source : String
  offset : ℕ
  deriving DecidableEq, Repr

/-- A source's typed data array; only `float_array` payloads are consumed. -/
inductive ArrayElement where
  | floatArray (data : List ℚ)
  | otherArray
  deriving DecidableEq, Repr

structure ColladaSource where
  id : String
  arrayElement : ArrayElement
  deriving DecidableEq, Repr

/-- The `<triangles>` primitive: `<p>` entries are parsed with
`parse::<u32>()`, so a negative entry is itself a parse panic upstream of
resolution. -/
structure Triangles where
  count : ℕ
  inputs : List InputShared
  p : Option (List ℕ)
  deriving DecidableEq, Repr

/-- The `<polylist>` primitive: `<p>` entries are parsed as `i32` and may be
negative; `<vcount>` entries are parsed as `u32`. -/
structure PolyList where
  count : ℕ
  inputs : List InputShared
  p : Option (List ℤ)
  vcount : Option (List ℕ)
  deriving DecidableEq, Repr

inductive Primitive where
  | triangles (t : Triangles)
  | polyList (pl : PolyList)
  | otherPrim
  deriving DecidableEq, Repr

structure MeshVertices where
  inputs : List InputUnshared
  deriving DecidableEq, Repr

structure ColladaMesh where
  sources : List ColladaSource
  vertices : MeshVertices
  primitives : List Primitive
  deriving DecidableEq, Repr

inductive GeometricElement where
  | mesh (m : ColladaMesh)
  | otherGeom
  deriving DecidableEq, Repr

structure Geometry where
  id : Option String
  geometricElement : GeometricElement
  deriving DecidableEq, Repr

structure GeometryInstance where
  url : String
  deriving DecidableEq, Repr

inductive NodeType where
  | node
  | joint
  deriving DecidableEq, Repr

structure ColladaNode where
  name : Option String
  typ : NodeType
  instanceGeometry : List GeometryInstance
  deriving DecidableEq, Repr

structure VisualScene where
  id : Option String
  nodes : List ColladaNode
  deriving DecidableEq, Repr

structure ColMaterial where
  id : Option String
  deriving DecidableEq, Repr

structure Effect where
  id : String
  deriving DecidableEq, Repr

inductive Library where
  | visualScenes (scenes : List VisualScene)
  | geometries (geoms : List Geometry)
  | materials (mats : List ColMaterial)
  | effects (effs : List Effect)
  | otherLib
  deriving DecidableEq, Repr

structure InstanceVisualScene where
  url : String
  deriving DecidableEq, Repr

structure ColladaScene where
  instanceVisualScene : Option InstanceVisualScene
  deriving DecidableEq, Repr

structure ColladaDocument where
  libraries : List Library
  scene : Option ColladaScene
  deriving DecidableEq, Repr

/-- HashMap-style insertion: later inserts under the same id overwrite. -/
def insertFn {β : Type} (m : String → Option β) (k : String) (v : β) :
    String → Option β :=
  fun q => if q = k then some v else m q

/-- Flattening of the library list into id-to-entity maps.  A visual scene,
geometry or material without an `id` hits `.expect(...)` and panics
(`none`); an effect's id attribute is mandatory in the schema type. -/
def daeMaps (libs : List Library) :
    Option ((String → Option VisualScene) × (String → Option Geometry) ×
            (String → Option ColMaterial) × (String → Option Effect)) :=
  foldOpt
    (fun acc lib =>
      match lib with
      | .visualScenes scenes =>
        match foldOpt (fun m vs =>
            match vs.id with
            | some i => some (insertFn m i vs)
            | none => none) acc.1 scenes with
        | none => none
        | some m => some (m, acc.2.1, acc.2.2.1, acc.2.2.2)
      | .geometries geoms =>
        match foldOpt (fun m geo =>
            match geo.id with
            | some i => some (insertFn m i geo)
            | none => none) acc.2.1 geoms with
        | none => none
        | some m => some (acc.1, m, acc.2.2.1, acc.2.2.2)
      | .materials mats =>
        match foldOpt (fun m mat =>
            match mat.id with
            | some i => some (insertFn m i mat)
            | none => none) acc.2.2.1 mats with
        | none => none
        | some m => some (acc.1, acc.2.1, m, acc.2.2.2)
      | .effects effs =>
        some (acc.1, acc.2.1, acc.2.2.1,
          effs.foldl (fun m eff => insertFn m eff.id eff) acc.2.2.2)
      | .otherLib => some acc)
    (fun _ => none, fun _ => none, fun _ => none, fun _ => none) libs

/-- The id-to-float-data map built per mesh: sources are filtered to
`float_array` payloads and folded into a map, so a lookup models
`.get(id).unwrap().as_float_array().unwrap()` (both unwraps panic exactly
when the lookup misses). -/
def buildSources (srcs : List ColladaSource) : String → Option (List ℚ) :=
  srcs.foldl
    (fun m src =>
      match src.arrayElement with
      | .floatArray dat => insertFn m src.id dat
      | .otherArray => m)
    (fun _ => none)

/-- Accumulator of `parse_vertices`. -/
structure VertData where
  positions : List V3
  normals : List V3
  texCoords : List V2
  normalOffset : ℤ
  texcoordOffset : ℤ
  minAabb : V3
  maxAabb : V3

/-- Resolution of the `<vertices>` inputs: the POSITION source is chunked
into 3-vectors, each accumulated into the AABB; NORMAL and TEXCOORD sources
set their offset marker to 0 and load their pools. -/
def parse_vertices (inputs : List InputUnshared)
    (sources : String → Option (List ℚ)) (minA maxA : V3) : Option VertData :=
  foldOpt
    (fun vd inp =>
      match inp.semantic with
      | .position =>
        match sources (inp.source.drop 1) with
        | none => none
        | some dat =>
          let chunks := chunks3 dat
          some { vd with
            positions := chunks
            minAabb := chunks.foldl compMin vd.minAabb
            maxAabb := chunks.foldl compMax vd.maxAabb }
      | .normal =>
        match sources (inp.source.drop 1) with
        | none => none
        | some dat => some { vd with normalOffset := 0, normals := chunks3 dat }
      | .texcoord =>
        match sources (inp.source.drop 1) with
        | none => none
        | some dat => some { vd with texcoordOffset := 0, texCoords := chunks2 dat }
      | .otherSem => some vd)
    ⟨[], [], [], -1, -1, minA, maxA⟩ inputs

/-- The shared-input scan common to `<triangles>` and `<polylist>`: NORMAL
and TEXCOORD inputs record their offset, raise `max_offset`, and reload their
pools from the named source. -/
def scanSharedInputs (sources : String → Option (List ℚ))
    (inputs : List InputShared)
    (start : ℤ × ℕ × List V3 × ℤ × List V2) :
    Option (ℤ × ℕ × List V3 × ℤ × List V2) :=
  foldOpt
    (fun acc inp =>
      match inp.semantic with
      | .normal =>
        match sources (inp.source.drop 1) with
        | none => none
        | some dat =>
          some ((inp.offset : ℤ), max acc.2.1 (inp.offset + 1), chunks3 dat,
            acc.2.2.2.1, acc.2.2.2.2)
      | .texcoord =>
        match sources (inp.source.drop 1) with
        | none => none
        | some dat =>
          some (acc.1, max acc.2.1 (inp.offset + 1), acc.2.2.1,
            (inp.offset : ℤ), chunks2 dat)
      | _ => some acc)
    start inputs

/-- Assembly of the three corners of one `<triangles>` chunk of
`3 * max_offset` stream entries: the normal index is read once at position
`normal_offset` of the chunk (corner 0's slot) and the texcoord index once at
`texcoord_offset`, both shared by the three corners; corner `j`'s position
index is read at `j * max_offset` (position offset assumed 0). -/
def triChunkVerts (nOff : ℤ) (maxOff : ℕ) (normals : List V3) (tOff : ℤ)
    (texCoords : List V2) (positions : List V3) (ch : List ℕ) :
    Option (List Vertex) :=
  match (if nOff ≠ -1 then (ch.get? nOff.toNat).bind normals.get?
      else some ⟨0, 0, 0⟩) with
  | none => none
  | some norm =>
    match (if tOff ≠ -1 then (ch.get? tOff.toNat).bind texCoords.get?
        else some ⟨0, 0⟩) with
    | none => none
    | some texc =>
      mapOpt (fun j =>
          match ch.get? (j * maxOff) with
          | none => none
          | some posIdx =>
            match positions.get? posIdx with
            | none => none
            | some pos => some (⟨pos, norm, texc⟩ : Vertex))
        [0, 1, 2]

/-- Triangle assembly of `<triangles>`: the flat `<p>` stream is cut into
chunks of `3 * max_offset`, each assembled by `triChunkVerts`; every pool
access is a direct index and panics out of range. -/
def parse_triangles (nodeName : String) (t : Triangles) (positions : List V3)
    (normalOffset0 : ℤ) (normals0 : List V3) (texcoordOffset0 : ℤ)
    (texCoords0 : List V2) (sources : String → Option (List ℚ)) :
    Option (ObjMesh Vertex) :=
  match t.p with
  | none => none
  | some p =>
    match scanSharedInputs sources t.inputs
        (normalOffset0, 1, normals0, texcoordOffset0, texCoords0) with
    | none => none
    | some (nOff, maxOff, normals, tOff, texCoords) =>
      let chunks := chunksE (3 * maxOff) p
      match mapOpt (triChunkVerts nOff maxOff normals tOff texCoords positions) chunks with
      | none => none
      | some triples =>
        some ⟨nodeName, triples.join,
          (List.range chunks.length).bind fun i =>
            [(3 * i) % U32, ((3 * i) % U32 + 1) % U32, ((3 * i) % U32 + 2) % U32],
          none⟩

/-- Negative-index resolution of the polylist path:
`if idx < 0 { len + idx } else { idx }` (0-based otherwise). -/
def resolveDae (len : ℕ) (r : ℤ) : ℤ :=
  if r < 0 then (len : ℤ) + r else r

/-- Plain `as usize` indexing with no negative handling (the fallback-normal
position reads). -/
def fetchNonneg (pool : List V3) (r : ℤ) : Option V3 :=
  if 0 ≤ r then pool.get? r.toNat else none

/-- The face normal of one polylist face: resolved from the stream entry at
`normal_offset` when a NORMAL input exists, otherwise the normalised cross
product of the first three corner positions (read without negative-index
handling). -/
def polylistNorm (nrm : V3 → V3) (positions normals : List V3) (nOff : ℤ)
    (maxOff : ℕ) (poly : List ℤ) : Option V3 :=
  if nOff ≠ -1 then
    match poly.get? nOff.toNat with
    | none => none
    | some idx => fetch normals (resolveDae normals.length idx)
  else
    match poly.get? 0 with
    | none => none
    | some i0 =>
      match fetchNonneg positions i0 with
      | none => none
      | some a =>
        match poly.get? maxOff with
        | none => none
        | some i1 =>
          match fetchNonneg positions i1 with
          | none => none
          | some b =>
            match poly.get? (2 * maxOff) with
            | none => none
            | some i2 =>
              match fetchNonneg positions i2 with
              | none => none
              | some c => some (nrm (V3.cross (b.sub a) (c.sub a)))

/-- Face assembly of `<polylist>`: faces are consumed from the flat stream by
cumulative width `vcount * max_offset`; the normal (or the fallback
cross-product normal) and the texcoord are resolved once per face and shared
by all corners; corner `j`'s position index sits at `j * max_offset`.  The
face is fan-triangulated; `0..vcount - 2` underflows (aborts) when
`vcount < 2`. -/
def polylistFace (nrm : V3 → V3) (positions : List V3) (normals : List V3)
    (texCoords : List V2) (nOff : ℤ) (tOff : ℤ) (maxOff : ℕ) (p : List ℤ)
    (acc : List Vertex × List ℕ × ℕ × ℕ) (vcount : ℕ) :
    Option (List Vertex × List ℕ × ℕ × ℕ) :=
  match acc with
  | (vs, ixs, skipBy, counter) =>
    match (if skipBy + vcount * maxOff ≤ p.length
        then some ((p.drop skipBy).take (vcount * maxOff)) else none) with
    | none => none
    | some poly =>
      match polylistNorm nrm positions normals nOff maxOff poly with
      | none => none
      | some norm =>
        match (if tOff ≠ -1 then
            match poly.get? tOff.toNat with
            | none => none
            | some idx => fetch texCoords (resolveDae texCoords.length idx)
          else some ⟨0, 0⟩) with
        | none => none
        | some texc =>
          match mapOpt (fun j =>
              match poly.get? (j * maxOff) with
              | none => none
              | some posIdx =>
                match fetch positions (resolveDae positions.length posIdx) with
                | none => none
                | some pos => some (⟨pos, norm, texc⟩ : Vertex))
            (List.range vcount) with
          | none => none
          | some newVs =>
            if vcount < 2 then none
            else
              some (vs ++ newVs,
                ixs ++ ((List.range (vcount - 2)).bind fun j =>
                  [counter, (counter + j + 1) % U32, (counter + j + 2) % U32]),
                skipBy + vcount * maxOff, (counter + vcount) % U32)

/-- The `<polylist>` resolver, including the `assert_eq!` that the declared
face count matches the `<vcount>` length (an assert failure is an abort). -/
def parse_polylist (nrm : V3 → V3) (nodeName : String) (pl : PolyList)
    (positions : List V3) (normalOffset0 : ℤ) (normals0 : List V3)
    (texcoordOffset0 : ℤ) (texCoords0 : List V2)
    (sources : String → Option (List ℚ)) : Option (ObjMesh Vertex) :=
  match pl.p with
  | none => none
  | some p =>
    match pl.vcount with
    | none => none
    | some vcounts =>
      match scanSharedInputs sources pl.inputs
          (normalOffset0, 1, normals0, texcoordOffset0, texCoords0) with
      | none => none
      | some (nOff, maxOff, normals, tOff, texCoords) =>
        if pl.count = vcounts.length then
          match foldOpt (polylistFace nrm positions normals texCoords nOff tOff maxOff p)
              ([], [], 0, 0) vcounts with
          | none => none
          | some (vertices, indices, _, _) => some ⟨nodeName, vertices, indices, none⟩
        else none

/-- Resolution of the geometry instances of one NODE-typed top-level node:
each referenced geometry is looked up (`unwrap`), its float sources are
mapped, its `<vertices>` inputs resolved (accumulating the AABB), and each
`<triangles>`/`<polylist>` primitive that has a `<p>` is assembled into a
Sub-mesh. -/
def processInstance (nrm : V3 → V3) (geoms : String → Option Geometry)
    (nodeName : String)
    (acc : List (ObjMesh Vertex) × V3 × V3) (gi : GeometryInstance) :
    Option (List (ObjMesh Vertex) × V3 × V3) :=
  match geoms (gi.url.drop 1) with
  | none => none
  | some geometry =>
    match geometry.geometricElement with
    | .otherGeom => some acc
    | .mesh mesh =>
      match parse_vertices mesh.vertices.inputs (buildSources mesh.sources)
          acc.2.1 acc.2.2 with
      | none => none
      | some vd =>
        match foldOpt
          (fun ms prim =>
            match prim with
            | .triangles t =>
              if t.p.isSome then
                match parse_triangles nodeName t vd.positions vd.normalOffset
                    vd.normals vd.texcoordOffset vd.texCoords (buildSources mesh.sources) with
                | none => none
                | some m => some (ms ++ [m])
              else some ms
            | .polyList pl =>
              if pl.p.isSome then
                match parse_polylist nrm nodeName pl vd.positions vd.normalOffset
                    vd.normals vd.texcoordOffset vd.texCoords (buildSources mesh.sources) with
                | none => none
                | some m => some (ms ++ [m])
              else some ms
            | .otherPrim => some ms)
          acc.1 mesh.primitives with
        | none => none
        | some meshes => some (meshes, vd.minAabb, vd.maxAabb)

/-- The top-level node loop: JOINT-typed nodes are skipped; each NODE-typed
node resolves its geometry instances under its (defaulted) name. -/
def processNodes (nrm : V3 → V3) (geoms : String → Option Geometry)
    (nodes : List ColladaNode) (start : List (ObjMesh Vertex) × V3 × V3) :
    Option (List (ObjMesh Vertex) × V3 × V3) :=
  foldOpt
    (fun acc node =>
      match node.typ with
      | .joint => some acc
      | .node =>
        foldOpt (processInstance nrm geoms (node.name.getD "default_mesh")) acc
          node.instanceGeometry)
    start nodes

/-- The COLLADA resolver (`parse_dae`, phase 2).  A document without a
`<scene>` yields an empty object; a scene without an
`instance_visual_scene` is a descriptive error; a referenced visual-scene id
missing from the map hits `.unwrap()` and panics; a scene with no NODE-typed
top-level node, or none holding a geometry instance, are descriptive
errors. -/
def parse_dae (nrm : V3 → V3) (root : ColladaDocument) : PResult (Object Vertex) :=
  match daeMaps root.libraries with
  | none => .fault
  | some (visualScenes, geometries, _, _) =>
    match root.scene with
    | none => .ok ⟨"default_obj", [], ⟨sentinelMin, sentinelMax⟩⟩
    | some s =>
      match s.instanceVisualScene with
      | none => .err "No visual scene found"
      | some vs =>
        match visualScenes (vs.url.drop 1) with
        | none => .fault
        | some visualScene =>
          if visualScene.nodes.all fun node => node.typ ≠ NodeType.node then
            .err "Visual Scene does not contain any supported nodes. JOINT nodes are not implemented yet"
          else if visualScene.nodes.all fun node => node.instanceGeometry.isEmpty then
            .err "No top-level node in the visual scene contains an instance of a mesh. Controller instances are not implemented yet"
          else
            match processNodes nrm geometries visualScene.nodes
                ([], sentinelMin, sentinelMax) with
            | none => .fault
            | some (meshes, minA, maxA) =>
              .ok ⟨"default_obj", meshes, ⟨minA, maxA⟩⟩

/-! NaN-aware scalar domain.  The rational scalars above embed the NaN-free,
finite fragment of `f32`.  That fragment is too small for the AABB
accumulation: `"nan".parse::<f32>()` succeeds in Rust, and `f32::min` /
`f32::max` (and the componentwise `glm::min` / `glm::max`) return the OTHER
operand when one operand is NaN, so a NaN vertex coordinate silently leaves
the `f32::MAX` / `f32::MIN` sentinels in place.  `XF` keeps those
distinctions: a scalar is NaN, an infinity, or an exact rational.  Finite
arithmetic is exact; special values follow the IEEE-754 rules, with the
single unsigned zero of `ℚ` oriented as `+0.0` (the orientation only reaches
tangent/bitangent and normal values, which no claim inspects). -/

/-- An `f32` value: NaN, `-inf`, an exact finite value, or `+inf`. -/
inductive XF where
  | nan
  | negInf
  | fin (q : ℚ)
  | posInf
  deriving DecidableEq, Repr

/-- The `f32` comparison `<=`: NaN compares false with everything (itself
included); otherwise `-inf ≤ finite ≤ +inf` with the rational order in the
middle. -/
def XF.le : XF → XF → Prop
  | .nan, _ => False
  | _, .nan => False
  | .negInf, _ => True
  | _, .posInf => True
  | .posInf, _ => False
  | _, .negInf => False
  | .fin x, .fin y => x ≤ y

instance (a b : XF) : Decidable (XF.le a b) := by
  cases a <;> cases b <;> simp only [XF.le] <;> infer_instance

/-- Rust `f32::min` (also componentwise `glm::min` for the non-NaN
accumulators of the parsers): if one operand is NaN the other operand is
returned, otherwise the smaller (ties keep the left operand; the only tied
distinct values, `+0.0`/`-0.0`, are identified in `ℚ`). -/
def fminX (a b : XF) : XF :=
  match a, b with
  | .nan, _ => b
  | _, .nan => a
  | _, _ => if XF.le a b then a else b

/-- Rust `f32::max` likewise. -/
def fmaxX (a b : XF) : XF :=
  match a, b with
  | .nan, _ => b
  | _, .nan => a
  | _, _ => if XF.le a b then b else a

/-- IEEE-754 negation. -/
def XF.neg : XF → XF
  | .nan => .nan
  | .negInf => .posInf
  | .posInf => .negInf
  | .fin q => .fin (-q)

/-- IEEE-754 addition: NaN propagates, opposite infinities give NaN. -/
def XF.add : XF → XF → XF
  | .nan, _ => .nan
  | _, .nan => .nan
  | .posInf, .negInf => .nan
  | .negInf, .posInf => .nan
  | .posInf, _ => .posInf
  | _, .posInf => .posInf
  | .negInf, _ => .negInf
  | _, .negInf => .negInf
  | .fin x, .fin y => .fin (x + y)

/-- IEEE-754 subtraction, `a + (-b)`. -/
def XF.sub (a b : XF) : XF := a.add b.neg

/-- IEEE-754 multiplication: NaN propagates, `0 * ±inf = NaN`. -/
def XF.mul : XF → XF → XF
  | .nan, _ => .nan
  | _, .nan => .nan
  | .fin x, .fin y => .fin (x * y)
  | .fin x, .posInf => if x = 0 then .nan else if 0 < x then .posInf else .negInf
  | .fin x, .negInf => if x = 0 then .nan else if 0 < x then .negInf else .posInf
  | .posInf, .fin y => if y = 0 then .nan else if 0 < y then .posInf else .negInf
  | .negInf, .fin y => if y = 0 then .nan else if 0 < y then .negInf else .posInf
  | .posInf, .posInf => .posInf
  | .posInf, .negInf => .negInf
  | .negInf, .posInf => .negInf
  | .negInf, .negInf => .posInf

/-- IEEE-754 division with the `ℚ` zero oriented as `+0.0`: `0/0` and
`inf/inf` are NaN, `x/0` is a signed infinity, `x/±inf` is zero. -/
def XF.div : XF → XF → XF
  | .nan, _ => .nan
  | _, .nan => .nan
  | .fin x, .fin y =>
    if y = 0 then (if x = 0 then .nan else if 0 < x then .posInf else .negInf)
    else .fin (x / y)
  | .fin _, .posInf => .fin 0
  | .fin _, .negInf => .fin 0
  | .posInf, .fin y => if 0 ≤ y then .posInf else .negInf
  | .negInf, .fin y => if 0 ≤ y then .negInf else .posInf
  | .posInf, .posInf => .nan
  | .posInf, .negInf => .nan
  | .negInf, .posInf => .nan
  | .negInf, .negInf => .nan

/-- 2-vector over the NaN-aware scalars. -/
structure XV2 where
  x : XF
  y : XF
  deriving DecidableEq, Repr

/-- 3-vector over the NaN-aware scalars. -/
structure XV3 where
  x : XF
  y : XF
  z : XF
  deriving DecidableEq, Repr

def XV2.sub (a b : XV2) : XV2 := ⟨a.x.sub b.x, a.y.sub b.y⟩

def XV3.add (a b : XV3) : XV3 := ⟨a.x.add b.x, a.y.add b.y, a.z.add b.z⟩

def XV3.sub (a b : XV3) : XV3 := ⟨a.x.sub b.x, a.y.sub b.y, a.z.sub b.z⟩

def XV3.smul (c : XF) (a : XV3) : XV3 := ⟨c.mul a.x, c.mul a.y, c.mul a.z⟩

def XV3.dot (a b : XV3) : XF := ((a.x.mul b.x).add (a.y.mul b.y)).add (a.z.mul b.z)

def XV3.cross (a b : XV3) : XV3 :=
  ⟨(a.y.mul b.z).sub (a.z.mul b.y),
   (a.z.mul b.x).sub (a.x.mul b.z),
   (a.x.mul b.y).sub (a.y.mul b.x)⟩

/-- Componentwise NaN-aware `f32` min, the `min_aabb` accumulation step. -/
def compMinX (a b : XV3) : XV3 := ⟨fminX a.x b.x, fminX a.y b.y, fminX a.z b.z⟩

/-- Componentwise NaN-aware `f32` max, the `max_aabb` accumulation step. -/
def compMaxX (a b : XV3) : XV3 := ⟨fmaxX a.x b.x, fmaxX a.y b.y, fmaxX a.z b.z⟩

/-- Componentwise `f32` order on NaN-aware 3-vectors. -/
def XV3.le (a b : XV3) : Prop := XF.le a.x b.x ∧ XF.le a.y b.y ∧ XF.le a.z b.z

instance (a b : XV3) : Decidable (XV3.le a b) := by unfold XV3.le; infer_instance

/-- No component of the vector is NaN. -/
def XV3.noNaN (v : XV3) : Prop := v.x ≠ XF.nan ∧ v.y ≠ XF.nan ∧ v.z ≠ XF.nan

instance (v : XV3) : Decidable (XV3.noNaN v) := by unfold XV3.noNaN; infer_instance

/-- The NaN-aware zero vectors used for placeholder fields. -/
def zero3X : XV3 := ⟨.fin 0, .fin 0, .fin 0⟩

def zero2X : XV2 := ⟨.fin 0, .fin 0⟩

/-- `vec3(f32::MAX, ..)`, the initial `min_aabb`, NaN-aware. -/
def sentinelMinX : XV3 := ⟨.fin f32Max, .fin f32Max, .fin f32Max⟩

/-- `vec3(f32::MIN, ..)`, the initial `max_aabb`, NaN-aware. -/
def sentinelMaxX : XV3 := ⟨.fin f32Min, .fin f32Min, .fin f32Min⟩

/-- `AABB` record over the NaN-aware scalars. -/
structure AABBX where
  min : XV3
  max : XV3
  deriving DecidableEq, Repr

/-- `Object` over the NaN-aware scalars. -/
structure ObjectX (V : Type) where
  name : String
  meshes : List (ObjMesh V)
  aabb : AABBX

/-- The claimed AABB invariant over the NaN-aware domain: an Object with at
least one vertex has `min ≤ max` componentwise and every Sub-mesh vertex
position inside `[min, max]`. -/
def aabbInvX {V : Type} (pos : V → XV3) (o : ObjectX V) : Prop :=
  (∃ m ∈ o.meshes, m.vertices ≠ []) →
    (XV3.le o.aabb.min o.aabb.max ∧
     ∀ m ∈ o.meshes, ∀ v ∈ m.vertices,
       XV3.le o.aabb.min (pos v) ∧ XV3.le (pos v) o.aabb.max)

/-! The OBJ parser over the NaN-aware scalars, line for line the same state
machine as `load_obj` above; only the scalar domain differs (the rational
embedding is its NaN-free fragment). -/

/-- OBJ vertex over the NaN-aware scalars. -/
structure ObjVertexX where
  position : XV3
  normal : XV3
  texCoords : XV2
  tangent : XV3
  bitangent : XV3
  deriving DecidableEq, Repr

def objVertexZeroX : ObjVertexX := ⟨zero3X, zero3X, zero2X, zero3X, zero3X⟩

/-- A significant OBJ line over the NaN-aware scalars. -/
inductive ObjLineX where
  | o (name : Option String)
  | g (name : Option String)
  | v (x y z : XF)
  | vn (x y z : XF)
  | vt (u w : XF)
  | f (corners : List FaceRef)
  | mtllib (mats : List (String × Material))
  | usemtl (name : Option String)
  | pLine
  | lLine
  | sLine
  | unknown

/-- Parser state of `load_obj`'s line loop, NaN-aware scalars. -/
structure ObjStateX where
  objectName : String
  currentMeshName : String
  tempVertices : List XV3
  vertices : List ObjVertexX
  normals : List XV3
  texCoords : List XV2
  indicesCounter : ℕ
  indices : List ℕ
  meshes : List (ObjMesh ObjVertexX)
  materials : String → Option Material
  currentMaterial : Option Material
  minAabb : XV3
  maxAabb : XV3

def initObjStateX : ObjStateX :=
  { objectName := ""
    currentMeshName := ""
    tempVertices := []
    vertices := []
    normals := []
    texCoords := []
    indicesCounter := 0
    indices := []
    meshes := []
    materials := fun _ => none
    currentMaterial := none
    minAabb := sentinelMinX
    maxAabb := sentinelMaxX }

/-- The face-normal fallback's `r as usize - 1` indexing, NaN-aware pool. -/
def fetchPos1X (pool : List XV3) (r : ℤ) : Option XV3 :=
  if 1 ≤ r then pool.get? (r - 1).toNat else none

def faceCalcNormalX (nrm : XV3 → XV3) (tempVertices normals : List XV3)
    (corners : List FaceRef) : Option XV3 :=
  if normals.isEmpty then
    match corners with
    | c0 :: c1 :: c2 :: _ =>
      match fetchPos1X tempVertices c0.vref, fetchPos1X tempVertices c1.vref,
          fetchPos1X tempVertices c2.vref with
      | some p0, some p1, some p2 =>
        some (nrm (XV3.cross (p1.sub p0) (p2.sub p0)))
      | _, _, _ => none
    | _ => none
  else some zero3X

def faceVertexX (tempVertices normals : List XV3) (texCoords : List XV2)
    (calcNormal : XV3) : FaceRef → Option ObjVertexX
  | .v vi => do
    let p ← fetch tempVertices (resolveRef tempVertices.length vi)
    some ⟨p, calcNormal, zero2X, zero3X, zero3X⟩
  | .vt vi ti => do
    let p ← fetch tempVertices (resolveRef tempVertices.length vi)
    let t ← fetch texCoords (resolveRef texCoords.length ti)
    some ⟨p, calcNormal, t, zero3X, zero3X⟩
  | .vtn vi ti ni => do
    let p ← fetch tempVertices (resolveRef tempVertices.length vi)
    let t ← fetch texCoords (resolveRef texCoords.length ti)
    let n ← fetch normals (resolveRef normals.length ni)
    some ⟨p, n, t, zero3X, zero3X⟩
  | .vvn vi ni => do
    let p ← fetch tempVertices (resolveRef tempVertices.length vi)
    let n ← fetch normals (resolveRef normals.length ni)
    some ⟨p, n, zero2X, zero3X, zero3X⟩

def updTBX (vs : List ObjVertexX) (i : ℕ) (t b : XV3) : List ObjVertexX :=
  match vs.get? i with
  | some w => vs.set i { w with tangent := w.tangent.add t, bitangent := w.bitangent.add b }
  | none => vs

/-- One iteration of the per-face tangent loop, NaN-aware arithmetic (the UV
denominator really can be zero or the operands NaN; the quotient then is an
infinity or NaN, exactly what the f32 code computes). -/
def tangentStepX (nrm : XV3 → XV3) (counter : ℕ) (vs : List ObjVertexX) (i : ℕ) :
    List ObjVertexX :=
  let idx1 := counter
  let idx2 := counter + i + 1
  let idx3 := counter + i + 2
  let vert1 := vs.getD idx1 objVertexZeroX
  let vert2 := vs.getD idx2 objVertexZeroX
  let vert3 := vs.getD idx3 objVertexZeroX
  let edge1 := vert2.position.sub vert1.position
  let edge2 := vert3.position.sub vert1.position
  let deltaUV1 := vert2.texCoords.sub vert1.texCoords
  let deltaUV2 := vert3.texCoords.sub vert1.texCoords
  let f := XF.div (.fin 1) ((deltaUV1.x.mul deltaUV2.y).sub (deltaUV2.x.mul deltaUV1.y))
  let tempTangent : XV3 :=
    ⟨f.mul ((deltaUV2.y.mul edge1.x).sub (deltaUV1.y.mul edge2.x)),
     f.mul ((deltaUV2.y.mul edge1.y).sub (deltaUV1.y.mul edge2.y)),
     f.mul ((deltaUV2.y.mul edge1.z).sub (deltaUV1.y.mul edge2.z))⟩
  let tangent := nrm (tempTangent.sub (XV3.smul (XV3.dot vert1.normal tempTangent) vert1.normal))
  let bitangent := XV3.cross vert1.normal tangent
  updTBX (updTBX (updTBX vs idx1 tangent bitangent) idx2 tangent bitangent) idx3 tangent bitangent

def tangentPassX (nrm : XV3 → XV3) (counter n : ℕ) (vs : List ObjVertexX) :
    List ObjVertexX :=
  (List.range (n - 2)).foldl (tangentStepX nrm counter) vs

def objFaceStepX (nrm : XV3 → XV3) (st : ObjStateX) (corners : List FaceRef) :
    Option ObjStateX :=
  if corners.length < 2 then none
  else
    match faceCalcNormalX nrm st.tempVertices st.normals corners with
    | none => none
    | some calcNormal =>
      match mapOpt (faceVertexX st.tempVertices st.normals st.texCoords calcNormal) corners with
      | none => none
      | some newVerts =>
        let vs := tangentPassX nrm st.indicesCounter corners.length (st.vertices ++ newVerts)
        some { st with
          vertices := vs
          indices := st.indices ++ faceIndices st.indicesCounter corners.length
          indicesCounter := (st.indicesCounter + corners.length % U32) % U32 }

def flushNameOGX (st : ObjStateX) : String :=
  if st.currentMeshName.isEmpty then st.objectName else st.currentMeshName

def flushNameFinalX (st : ObjStateX) : String :=
  if st.currentMeshName.isEmpty ∧ ¬st.objectName.isEmpty then st.objectName
  else if ¬st.currentMeshName.isEmpty then st.currentMeshName
  else "default_mesh"

def flushMeshesX (st : ObjStateX) (name : String) : List (ObjMesh ObjVertexX) :=
  if st.vertices.isEmpty then st.meshes
  else st.meshes ++ [⟨name, st.vertices, st.indices, st.currentMaterial⟩]

def objStepX (nrm : XV3 → XV3) (st : ObjStateX) : ObjLineX → Option ObjStateX
  | .o name =>
    some { st with
      meshes := flushMeshesX st (flushNameOGX st)
      vertices := [], indices := [], indicesCounter := 0
      objectName := name.getD "" }
  | .g name =>
    some { st with
      meshes := flushMeshesX st (flushNameOGX st)
      vertices := [], indices := [], indicesCounter := 0
      currentMeshName := name.getD "default_mesh" }
  | .v x y z =>
    some { st with
      tempVertices := st.tempVertices ++ [⟨x, y, z⟩]
      minAabb := compMinX st.minAabb ⟨x, y, z⟩
      maxAabb := compMaxX st.maxAabb ⟨x, y, z⟩ }
  | .vn x y z => some { st with normals := st.normals ++ [⟨x, y, z⟩] }
  | .vt u w => some { st with texCoords := st.texCoords ++ [⟨u, XF.sub (.fin 1) w⟩] }
  | .f corners => objFaceStepX nrm st corners
  | .mtllib mats => some { st with materials := extendMats st.materials mats }
  | .usemtl name =>
    some { st with
      meshes := flushMeshesX st (flushNameFinalX st)
      vertices := [], indices := [], indicesCounter := 0
      currentMaterial := st.materials (name.getD "") }
  | .pLine => some st
  | .lLine => some st
  | .sLine => some st
  | .unknown => some st

/-- The OBJ parser over the NaN-aware scalars. -/
def load_objX (nrm : XV3 → XV3) (lines : List ObjLineX) : Option (ObjectX ObjVertexX) :=
  match foldOpt (objStepX nrm) initObjStateX lines with
  | none => none
  | some st =>
    some { name := st.objectName
           meshes := st.meshes ++
             [⟨flushNameFinalX st, st.vertices, st.indices, st.currentMaterial⟩]
           aabb := ⟨st.minAabb, st.maxAabb⟩ }

/-! The ASCII STL parser over the NaN-aware scalars, line for line the same
state machine as `parse_ascii_stl` above. -/

/-- A line of an ASCII STL body over the NaN-aware scalars. -/
inductive StlLineX where
  | normalLn (x y z : XF)
  | vertexLn (x y z : XF)
  | endFacetLn
  | otherLn

/-- STL/COLLADA vertex over the NaN-aware scalars. -/
structure VertexX where
  position : XV3
  normal : XV3
  texCoords : XV2
  deriving DecidableEq, Repr

structure AsciiAccX where
  curNormal : XV3
  curVerts : List XV3
  vertices : List VertexX
  indices : List ℕ
  triCount : ℕ
  minAabb : XV3
  maxAabb : XV3

def initAsciiAccX : AsciiAccX :=
  ⟨zero3X, [], [], [], 0, sentinelMinX, sentinelMaxX⟩

def asciiEmitX (acc : AsciiAccX) : Option AsciiAccX :=
  match acc.curVerts with
  | a :: b :: c :: _ =>
    some { curNormal := zero3X
           curVerts := []
           vertices := acc.vertices ++
             [⟨a, acc.curNormal, zero2X⟩, ⟨b, acc.curNormal, zero2X⟩, ⟨c, acc.curNormal, zero2X⟩]
           indices := acc.indices ++
             [stlIndex acc.triCount 0, stlIndex acc.triCount 1, stlIndex acc.triCount 2]
           triCount := acc.triCount + 1
           minAabb := compMinX (compMinX (compMinX acc.minAabb a) b) c
           maxAabb := compMaxX (compMaxX (compMaxX acc.maxAabb a) b) c }
  | _ => none

def asciiStepX (acc : AsciiAccX) : StlLineX → Option AsciiAccX
  | .normalLn x y z => some { acc with curNormal := ⟨x, y, z⟩ }
  | .vertexLn x y z => some { acc with curVerts := acc.curVerts ++ [⟨x, y, z⟩] }
  | .endFacetLn => asciiEmitX acc
  | .otherLn => some acc

/-- The ASCII STL parser over the NaN-aware scalars. -/
def parse_ascii_stlX (lines : List StlLineX) : Option (ObjectX VertexX) :=
  match foldOpt asciiStepX initAsciiAccX lines with
  | none => none
  | some acc =>
    some { name := "default_object"
           meshes := [⟨"default_mesh", acc.vertices, acc.indices, some Material.defaultMat⟩]
           aabb := ⟨acc.minAabb, acc.maxAabb⟩ }

/-! The binary STL path's AABB works on `f32` values decoded from the record
words.  The decoding is made explicit here so that the abstract `wmin` /
`wmax` pair of `parse_binary_stl` can be instantiated with the actual
componentwise `glm::min` / `glm::max`. -/

/-- Exact value of an IEEE-754 single-precision bit pattern: sign bit, 8
exponent bits, 23 fraction bits; exponent 255 encodes the infinities
(fraction 0) and NaNs, exponent 0 the subnormals `±frac * 2^-149`, the rest
the normal values `±(2^23 + frac) * 2^(expo - 150)`. -/
def decodeF32 (w : ℕ) : XF :=
  let w := w % 4294967296
  let sign := w / 2147483648
  let expo := w / 8388608 % 256
  let frac := w % 8388608
  if expo = 255 then
    if frac = 0 then (if sign = 1 then .negInf else .posInf) else .nan
  else
    let mag : ℚ :=
      if expo = 0 then (frac : ℚ) * 2 / 2 ^ 150
      else ((8388608 + frac : ℕ) : ℚ) * 2 ^ expo / 2 ^ 150
    .fin (if sign = 1 then -mag else mag)

/-- Rust `f32::min` / componentwise `glm::min` at the level of bit patterns:
a NaN operand loses, otherwise the word of the smaller value is kept (ties
keep the left word; tied distinct words, `+0.0` vs `-0.0`, decode equal, so
no property stated through `decodeF32` depends on the tie choice). -/
def f32minWord (a b : ℕ) : ℕ :=
  match decodeF32 a, decodeF32 b with
  | .nan, _ => b
  | _, .nan => a
  | x, y => if XF.le x y then a else b

def f32maxWord (a b : ℕ) : ℕ :=
  match decodeF32 a, decodeF32 b with
  | .nan, _ => b
  | _, .nan => a
  | x, y => if XF.le x y then b else a

/-- The componentwise word-level `glm::min` on vertex word triples, the
concrete instantiation of the binary path's abstract `wmin`. -/
def wminW3 (a b : W3) : W3 :=
  (f32minWord a.1 b.1, f32minWord a.2.1 b.2.1, f32minWord a.2.2 b.2.2)

def wmaxW3 (a b : W3) : W3 :=
  (f32maxWord a.1 b.1, f32maxWord a.2.1 b.2.1, f32maxWord a.2.2 b.2.2)

/-- Decoded-value `f32` order on words. -/
def wle (a b : ℕ) : Prop := XF.le (decodeF32 a) (decodeF32 b)

instance (a b : ℕ) : Decidable (wle a b) := by unfold wle; infer_instance

def w3le (a b : W3) : Prop := wle a.1 b.1 ∧ wle a.2.1 b.2.1 ∧ wle a.2.2 b.2.2

instance (a b : W3) : Decidable (w3le a b) := by unfold w3le; infer_instance

/-- The word does not hold a NaN bit pattern. -/
def wNoNaN (a : ℕ) : Prop := decodeF32 a ≠ XF.nan

instance (a : ℕ) : Decidable (wNoNaN a) := by unfold wNoNaN; infer_instance

def w3NoNaN (a : W3) : Prop := wNoNaN a.1 ∧ wNoNaN a.2.1 ∧ wNoNaN a.2.2

instance (a : W3) : Decidable (w3NoNaN a) := by unfold w3NoNaN; infer_instance

/-- The word triple held by a `V3` whose components carry word values (how
`parse_binary_stl` stores its accumulated words in the shared `AABB`
record). -/
def v3Words (v : V3) : W3 := (v.x.num.toNat, v.y.num.toNat, v.z.num.toNat)

/-! Input predicates for the amended AABB claim: only the vertex-POSITION
scalars are constrained (normal and texture scalars never reach a position
or the AABB accumulators). -/

/-- The line carries no NaN vertex-position coordinate. -/
def lineNoNaN : ObjLineX → Prop
  | ObjLineX.v x y z => x ≠ XF.nan ∧ y ≠ XF.nan ∧ z ≠ XF.nan
  | _ => True

instance : DecidablePred lineNoNaN := fun line => by
  cases line <;> simp only [lineNoNaN] <;> infer_instance

def vLinesNoNaN (lines : List ObjLineX) : Prop := ∀ line ∈ lines, lineNoNaN line

instance (lines : List ObjLineX) : Decidable (vLinesNoNaN lines) :=
  List.decidableBAll _ lines

/-- The ASCII STL line carries no NaN vertex coordinate. -/
def stlLineNoNaN : StlLineX → Prop
  | StlLineX.vertexLn x y z => x ≠ XF.nan ∧ y ≠ XF.nan ∧ z ≠ XF.nan
  | _ => True

instance : DecidablePred stlLineNoNaN := fun line => by
  cases line <;> simp only [stlLineNoNaN] <;> infer_instance

def vertexLinesNoNaN (lines : List StlLineX) : Prop := ∀ line ∈ lines, stlLineNoNaN line

instance (lines : List StlLineX) : Decidable (vertexLinesNoNaN lines) :=
  List.decidableBAll _ lines

/-- Loop invariant of the NaN-aware OBJ line loop: the accumulators hold no
NaN and bound the position pool, the in-progress vertices and every flushed
mesh. -/
def objInvX (st : ObjStateX) : Prop :=
  XV3.noNaN st.minAabb ∧ XV3.noNaN st.maxAabb ∧
  (∀ p ∈ st.tempVertices, XV3.le st.minAabb p ∧ XV3.le p st.maxAabb) ∧
  (∀ v ∈ st.vertices, XV3.le st.minAabb v.position ∧ XV3.le v.position st.maxAabb) ∧
  (∀ m ∈ st.meshes, ∀ v ∈ m.vertices,
    XV3.le st.minAabb v.position ∧ XV3.le v.position st.maxAabb)

/-- Loop invariant of the NaN-aware ASCII STL facet loop. -/
def asciiInvX (acc : AsciiAccX) : Prop :=
  XV3.noNaN acc.minAabb ∧ XV3.noNaN acc.maxAabb ∧
  (∀ p ∈ acc.curVerts, XV3.noNaN p) ∧
  (∀ v ∈ acc.vertices, XV3.le acc.minAabb v.position ∧ XV3.le v.position acc.maxAabb)

/-- The identity at `XV3`, instantiating the abstract `glm::normalize`. -/
def idXV3 : XV3 → XV3 := fun v => v

/-- The OBJ input `v nan 0 0` / `f 1 1 1`: Rust's `"nan".parse::<f32>()`
succeeds, so the position pool holds a NaN coordinate and the (degenerate)
3-corner face pushes three vertices referencing it. -/
def nanObjLines : List ObjLineX :=
  [.v .nan (.fin 0) (.fin 0), .f [.v 1, .v 1, .v 1]]

/-- The NaN-free X-scalar version of the quad OBJ file. -/
def quadObjLinesX : List ObjLineX :=
  [.v (.fin 0) (.fin 0) (.fin 0), .v (.fin 1) (.fin 0) (.fin 0),
   .v (.fin 1) (.fin 1) (.fin 0), .v (.fin 0) (.fin 1) (.fin 0),
   .f [.v 1, .v 2, .v 3, .v 4]]

/-- The NaN-free X-scalar version of the single ASCII STL facet. -/
def oneFacetLinesX : List StlLineX :=
  [.normalLn (.fin 0) (.fin 0) (.fin 1), .vertexLn (.fin 0) (.fin 0) (.fin 0),
   .vertexLn (.fin 1) (.fin 0) (.fin 0), .vertexLn (.fin 0) (.fin 1) (.fin 0),
   .endFacetLn]

/-- The identity at `V3`, a concrete instantiation of the abstract
`glm::normalize` argument for witnesses and counterexamples (no claim depends
on the normalised value). -/
def idV3 : V3 → V3 := fun v => v

/-- Loop invariant of `load_obj`'s line loop: the index counter mirrors the
in-progress vertex count (mod `U32`), the in-progress and flushed index
buffers respect the Sub-mesh invariant, and the accumulated AABB bounds the
position pool, the in-progress vertices and every flushed mesh. -/
def objInv (st : ObjState) : Prop :=
  st.indicesCounter = st.vertices.length % U32 ∧
  st.indices.length % 3 = 0 ∧
  (∀ ix ∈ st.indices, ix < st.vertices.length) ∧
  (∀ m ∈ st.meshes, meshInv m) ∧
  (∀ p ∈ st.tempVertices, V3.le st.minAabb p ∧ V3.le p st.maxAabb) ∧
  (∀ v ∈ st.vertices, V3.le st.minAabb v.position ∧ V3.le v.position st.maxAabb) ∧
  (∀ m ∈ st.meshes, ∀ v ∈ m.vertices, V3.le st.minAabb v.position ∧ V3.le v.position st.maxAabb)

/-- Loop invariant of the ASCII STL facet loop. -/
def asciiInv (acc : AsciiAcc) : Prop :=
  acc.vertices.length = 3 * acc.triCount ∧
  acc.indices.length % 3 = 0 ∧
  (∀ ix ∈ acc.indices, ix < acc.vertices.length) ∧
  (∀ v ∈ acc.vertices, V3.le acc.minAabb v.position ∧ V3.le v.position acc.maxAabb)

/-- Loop invariant of the polylist face loop: the index counter mirrors the
vertex count (mod `U32`), indices come in triples below the vertex count, and
every emitted position is drawn from the position pool. -/
def polyInv (positions : List V3) (acc : List Vertex × List ℕ × ℕ × ℕ) : Prop :=
  acc.2.2.2 = acc.1.length % U32 ∧
  acc.2.1.length % 3 = 0 ∧
  (∀ ix ∈ acc.2.1, ix < acc.1.length) ∧
  (∀ v ∈ acc.1, v.position ∈ positions)

/-- Loop invariant of the COLLADA node/instance resolution: every flushed
mesh respects the Sub-mesh invariant and its positions lie inside the
accumulated bounds. -/
def daeInv (acc : List (ObjMesh Vertex) × V3 × V3) : Prop :=
  (∀ m ∈ acc.1, meshInv m) ∧
  (∀ m ∈ acc.1, ∀ v ∈ m.vertices, V3.le acc.2.1 v.position ∧ V3.le v.position acc.2.2)

/-! Concrete inputs used by witnesses and counterexamples. -/

/-- A fresh OBJ parser state holding the four corner positions of a quad. -/
def st4demo : ObjState :=
  { initObjState with tempVertices := [⟨0, 0, 0⟩, ⟨1, 0, 0⟩, ⟨1, 1, 0⟩, ⟨0, 1, 0⟩] }

/-- The quad face directive `f 1 2 3 4`. -/
def quadFace : List FaceRef := [.v 1, .v 2, .v 3, .v 4]

/-- A tiny OBJ file: four vertices and the quad face `f 1 2 3 4`. -/
def quadObjLines : List ObjLine :=
  [.v 0 0 0, .v 1 0 0, .v 1 1 0, .v 0 1 0, .f quadFace]

/-- Sources of the demonstration COLLADA mesh: a position pool of three
points and a normal pool of three distinct normals. -/
def demoSources : List ColladaSource :=
  [⟨"pos", .floatArray [0, 0, 0, 1, 0, 0, 0, 1, 0]⟩,
   ⟨"nrm", .floatArray [1, 0, 0, 0, 1, 0, 0, 0, 1]⟩]

/-- The demonstration position pool as 3-vectors. -/
def demoPositions : List V3 := chunks3 [0, 0, 0, 1, 0, 0, 0, 1, 0]

/-- A `<triangles>` primitive with a NORMAL input at offset 1 (so
`max_offset = 2`) whose `<p>` stream gives corner `j` of the single triangle
position index `j` and normal index `j`. -/
def demoTriangles : Triangles :=
  ⟨1, [⟨.normal, "#nrm", 1⟩], some [0, 0, 1, 1, 2, 2]⟩

/-- A document whose `<scene>` references a visual-scene id that no library
defines. -/
def missingSceneDoc : ColladaDocument :=
  ⟨[], some ⟨some ⟨"#missing"⟩⟩⟩

/-- Binary STL bytes: zero header, declared count 2, but no record bytes at
all (end of input immediately after the count). -/
def truncatedStlBytes : List ℕ := List.replicate 80 0 ++ [2, 0, 0, 0]

/-- Binary STL bytes: zero header, declared count 1, one full 50-byte
record with bytes 0,1,...,49. -/
def oneTriStlBytes : List ℕ := List.replicate 80 0 ++ [1, 0, 0, 0] ++ List.range 50

/-- ASCII STL lines for a single facet. -/
def oneFacetLines : List StlLine :=
  [.normalLn 0 0 1, .vertexLn 0 0 0, .vertexLn 1 0 0, .vertexLn 0 1 0, .endFacetLn]

/-- A polylist quad over a four-point pool (`vcount = [4]`). -/
def demoQuadSources : List ColladaSource :=
  [⟨"pos", .floatArray [0, 0, 0, 1, 0, 0, 1, 1, 0, 0, 1, 0]⟩]

def demoQuadPolylist : PolyList := ⟨1, [], some [0, 1, 2, 3], some [4]⟩

/-- A COLLADA document with one geometry (a single triangle with per-corner
normal indices as in `demoTriangles`) instanced by one NODE-typed top-level
node. -/
def demoDaeDoc : ColladaDocument :=
  ⟨[.geometries [⟨some "geo",
      .mesh ⟨demoSources, ⟨[⟨.position, "#pos"⟩]⟩, [.triangles demoTriangles]⟩⟩],
    .visualScenes [⟨some "scene0",
      [⟨some "node0", .node, [⟨"#geo"⟩]⟩]⟩]],
   some ⟨some ⟨"#scene0"⟩⟩⟩

/-! Theorems.  Generic iteration lemmas first. -/

theorem foldOpt_inv {σ α : Type} (f : σ → α → Option σ) (P : σ → Prop)
    (hstep : ∀ s a s', P s → f s a = some s' → P s') :
    ∀ (l : List α) (s s' : σ), P s → foldOpt f s l = some s' → P s' := by
  intro l
  induction l with
  | nil => intro s s' hP h; simp only [foldOpt] at h; cases h; exact hP
  | cons a l ih =>
    intro s s' hP h
    simp only [foldOpt] at h
    cases hfa : f s a with
    | none => rw [hfa] at h; exact absurd h (by simp)
    | some s1 => rw [hfa] at h; exact ih s1 s' (hstep s a s1 hP hfa) h

theorem mapOpt_length {α β : Type} (f : α → Option β) :
    ∀ (l : List α) (l' : List β), mapOpt f l = some l' → l'.length = l.length := by
  intro l
  induction l with
  | nil => intro l' h; simp only [mapOpt] at h; cases h; rfl
  | cons a l ih =>
    intro l' h
    simp only [mapOpt] at h
    cases hfa : f a with
    | none => rw [hfa] at h; exact absurd h (by simp)
    | some b =>
      rw [hfa] at h
      cases hml : mapOpt f l with
      | none => rw [hml] at h; exact absurd h (by simp)
      | some lb =>
        rw [hml] at h
        cases h
        simp [ih lb hml]

theorem mapOpt_mem {α β : Type} (f : α → Option β) :
    ∀ (l : List α) (l' : List β), mapOpt f l = some l' →
      ∀ b ∈ l', ∃ a ∈ l, f a = some b := by
  intro l
  induction l with
  | nil => intro l' h b hb; simp only [mapOpt] at h; cases h; simp at hb
  | cons a l ih =>
    intro l' h b hb
    simp only [mapOpt] at h
    cases hfa : f a with
    | none => rw [hfa] at h; exact absurd h (by simp)
    | some b0 =>
      rw [hfa] at h
      cases hml : mapOpt f l with
      | none => rw [hml] at h; exact absurd h (by simp)
      | some lb =>
        rw [hml] at h
        cases h
        rcases List.mem_cons.1 hb with rfl | hb'
        · exact ⟨a, by simp, hfa⟩
        · rcases ih lb hml b hb' with ⟨a', ha', hfa'⟩
          exact ⟨a', by simp [ha'], hfa'⟩

theorem mapOpt_get? {α β : Type} (f : α → Option β) :
    ∀ (l : List α) (l' : List β), mapOpt f l = some l' →
      ∀ n : ℕ, n < l.length → (l.get? n).bind f = l'.get? n := by
  intro l
  induction l with
  | nil => intro l' _ n hn; simp at hn
  | cons a l ih =>
    intro l' h n hn
    simp only [mapOpt] at h
    cases hfa : f a with
    | none => rw [hfa] at h; exact absurd h (by simp)
    | some b0 =>
      rw [hfa] at h
      cases hml : mapOpt f l with
      | none => rw [hml] at h; exact absurd h (by simp)
      | some lb =>
        rw [hml] at h
        cases h
        cases n with
        | zero => simpa using hfa
        | succ m =>
          simp only [List.get?_cons_succ]
          exact ih lb hml m (by simpa using Nat.lt_of_succ_lt_succ hn)

/-! Componentwise order lemmas. -/

theorem V3.le_refl (a : V3) : V3.le a a := ⟨le_rfl, le_rfl, le_rfl⟩

theorem V3.le_trans {a b c : V3} (h1 : V3.le a b) (h2 : V3.le b c) : V3.le a c :=
  ⟨h1.1.trans h2.1, h1.2.1.trans h2.2.1, h1.2.2.trans h2.2.2⟩

theorem compMin_le_left (a b : V3) : V3.le (compMin a b) a :=
  ⟨min_le_left _ _, min_le_left _ _, min_le_left _ _⟩

theorem compMin_le_right (a b : V3) : V3.le (compMin a b) b :=
  ⟨min_le_right _ _, min_le_right _ _, min_le_right _ _⟩

theorem le_compMax_left (a b : V3) : V3.le a (compMax a b) :=
  ⟨le_max_left _ _, le_max_left _ _, le_max_left _ _⟩

theorem le_compMax_right (a b : V3) : V3.le b (compMax a b) :=
  ⟨le_max_right _ _, le_max_right _ _, le_max_right _ _⟩

theorem foldl_compMin_le_init (l : List V3) :
    ∀ init : V3, V3.le (l.foldl compMin init) init := by
  induction l with
  | nil => intro init; exact V3.le_refl _
  | cons a l ih =>
    intro init
    exact V3.le_trans (ih (compMin init a)) (compMin_le_left _ _)

theorem foldl_compMin_le_mem (l : List V3) :
    ∀ init : V3, ∀ x ∈ l, V3.le (l.foldl compMin init) x := by
  induction l with
  | nil => intro _ x hx; simp at hx
  | cons a l ih =>
    intro init x hx
    rcases List.mem_cons.1 hx with rfl | hx'
    · exact V3.le_trans (foldl_compMin_le_init l (compMin init x)) (compMin_le_right _ _)
    · exact ih (compMin init a) x hx'

theorem init_le_foldl_compMax (l : List V3) :
    ∀ init : V3, V3.le init (l.foldl compMax init) := by
  induction l with
  | nil => intro init; exact V3.le_refl _
  | cons a l ih =>
    intro init
    exact V3.le_trans (le_compMax_left _ _) (ih (compMax init a))

theorem mem_le_foldl_compMax (l : List V3) :
    ∀ init : V3, ∀ x ∈ l, V3.le x (l.foldl compMax init) := by
  induction l with
  | nil => intro _ x hx; simp at hx
  | cons a l ih =>
    intro init x hx
    rcases List.mem_cons.1 hx with rfl | hx'
    · exact V3.le_trans (le_compMax_right _ _) (init_le_foldl_compMax l (compMax init x))
    · exact ih (compMax init a) x hx'

/-! Arithmetic and bind-shape helpers. -/

theorem U32_pos : 0 < U32 := by decide

theorem length_bind_cons3 {α β : Type} (l : List α) (f1 f2 f3 : α → β) :
    (l.bind fun a => [f1 a, f2 a, f3 a]).length = 3 * l.length := by
  induction l with
  | nil => rfl
  | cons a l ih =>
    simp only [List.cons_bind, List.length_append, List.length_cons,
      List.length_nil, ih, List.length_cons]
    omega

/-! Lemmas about the OBJ face machinery. -/

theorem bind_congr_mem {α β : Type} (l : List α) (f g : α → List β)
    (h : ∀ a ∈ l, f a = g a) : l.bind f = l.bind g := by
  induction l with
  | nil => rfl
  | cons a l ih =>
    have h1 : f a = g a := h a (by simp)
    have h2 : l.bind f = l.bind g := ih fun x hx => h x (by simp [hx])
    simp only [List.cons_bind]
    rw [h1]
    exact congrArg (g a ++ ·) h2

theorem updTB_length (vs : List ObjVertex) (i : ℕ) (t b : V3) :
    (updTB vs i t b).length = vs.length := by
  unfold updTB
  cases h : vs.get? i <;> simp

theorem updTB_pos (vs : List ObjVertex) (i : ℕ) (t b : V3) :
    ∀ v' ∈ updTB vs i t b, ∃ v ∈ vs, v'.position = v.position := by
  intro v' hv'
  unfold updTB at hv'
  cases h : vs.get? i with
  | none => rw [h] at hv'; exact ⟨v', hv', rfl⟩
  | some w =>
    rw [h] at hv'
    rcases List.mem_or_eq_of_mem_set hv' with hmem | rfl
    · exact ⟨v', hmem, rfl⟩
    · exact ⟨w, List.get?_mem h, rfl⟩

theorem tangentStep_length (nrm : V3 → V3) (c : ℕ) (vs : List ObjVertex) (i : ℕ) :
    (tangentStep nrm c vs i).length = vs.length := by
  unfold tangentStep
  simp only [updTB_length]

theorem tangentStep_pos (nrm : V3 → V3) (c : ℕ) (vs : List ObjVertex) (i : ℕ) :
    ∀ v' ∈ tangentStep nrm c vs i, ∃ v ∈ vs, v'.position = v.position := by
  intro v' hv'
  unfold tangentStep at hv'
  rcases updTB_pos _ _ _ _ _ hv' with ⟨v2, hv2, he2⟩
  rcases updTB_pos _ _ _ _ _ hv2 with ⟨v1, hv1, he1⟩
  rcases updTB_pos _ _ _ _ _ hv1 with ⟨v0, hv0, he0⟩
  exact ⟨v0, hv0, by rw [he2, he1, he0]⟩

theorem tangentPass_length (nrm : V3 → V3) (c n : ℕ) (vs : List ObjVertex) :
    (tangentPass nrm c n vs).length = vs.length := by
  unfold tangentPass
  generalize List.range (n - 2) = l
  induction l generalizing vs with
  | nil => rfl
  | cons i l ih => simp only [List.foldl_cons]; rw [ih, tangentStep_length]

theorem tangentPass_pos (nrm : V3 → V3) (c n : ℕ) (vs : List ObjVertex) :
    ∀ v' ∈ tangentPass nrm c n vs, ∃ v ∈ vs, v'.position = v.position := by
  unfold tangentPass
  generalize List.range (n - 2) = l
  induction l generalizing vs with
  | nil => intro v' hv'; exact ⟨v', hv', rfl⟩
  | cons i l ih =>
    intro v' hv'
    simp only [List.foldl_cons] at hv'
    rcases ih (tangentStep nrm c vs i) v' hv' with ⟨v1, hv1, he1⟩
    rcases tangentStep_pos nrm c vs i v1 hv1 with ⟨v0, hv0, he0⟩
    exact ⟨v0, hv0, by rw [he1, he0]⟩

theorem fetch_mem {α : Type} (pool : List α) (i : ℤ) (a : α)
    (h : fetch pool i = some a) : a ∈ pool := by
  unfold fetch at h
  split at h
  · exact List.get?_mem h
  · exact absurd h (by simp)

theorem faceVertex_pos (tv normals : List V3) (tc : List V2) (cn : V3)
    (c : FaceRef) (v : ObjVertex)
    (h : faceVertex tv normals tc cn c = some v) : v.position ∈ tv := by
  cases c with
  | v vi =>
    simp only [faceVertex, Option.bind_eq_bind, Option.bind_eq_some] at h
    rcases h with ⟨p, hp, hv⟩
    cases hv
    exact fetch_mem _ _ _ hp
  | vt vi ti =>
    simp only [faceVertex, Option.bind_eq_bind, Option.bind_eq_some] at h
    rcases h with ⟨p, hp, t, ht, hv⟩
    cases hv
    exact fetch_mem _ _ _ hp
  | vtn vi ti ni =>
    simp only [faceVertex, Option.bind_eq_bind, Option.bind_eq_some] at h
    rcases h with ⟨p, hp, t, ht, n, hn, hv⟩
    cases hv
    exact fetch_mem _ _ _ hp
  | vvn vi ni =>
    simp only [faceVertex, Option.bind_eq_bind, Option.bind_eq_some] at h
    rcases h with ⟨p, hp, n, hn, hv⟩
    cases hv
    exact fetch_mem _ _ _ hp

theorem faceIndices_length (c n : ℕ) : (faceIndices c n).length = 3 * (n - 2) := by
  unfold faceIndices
  rw [length_bind_cons3]
  simp

theorem faceIndices_bound (len n : ℕ) (h2 : 2 ≤ n) :
    ∀ ix ∈ faceIndices (len % U32) n, ix < len + n := by
  intro ix hix
  unfold faceIndices at hix
  rcases List.mem_bind.1 hix with ⟨i, hi, hmem⟩
  have hilt : i < n - 2 := List.mem_range.1 hi
  have hmodle : len % U32 ≤ len := Nat.mod_le _ _
  have himod : i % U32 ≤ i := Nat.mod_le _ _
  simp only [List.mem_cons, List.not_mem_nil, or_false] at hmem
  rcases hmem with rfl | rfl | rfl
  · omega
  · have hb : (len % U32 + i % U32 + 1) % U32 ≤ len % U32 + i % U32 + 1 := Nat.mod_le _ _
    omega
  · have hb : (len % U32 + i % U32 + 2) % U32 ≤ len % U32 + i % U32 + 2 := Nat.mod_le _ _
    omega

theorem faceIndices_no_wrap (c n : ℕ) (h : c + n < U32) :
    faceIndices c n = (List.range (n - 2)).bind fun i => [c, c + i + 1, c + i + 2] := by
  unfold faceIndices
  apply bind_congr_mem
  intro i hi
  have hilt : i < n - 2 := List.mem_range.1 hi
  have h1 : i % U32 = i := Nat.mod_eq_of_lt (by omega)
  have h2 : (c + i + 1) % U32 = c + i + 1 := Nat.mod_eq_of_lt (by omega)
  have h3 : (c + i + 2) % U32 = c + i + 2 := Nat.mod_eq_of_lt (by omega)
  rw [h1, h2, h3]

/-- Structural description of a successful `f`-directive step. -/
theorem objFaceStep_spec (nrm : V3 → V3) (st : ObjState) (corners : List FaceRef)
    (st' : ObjState) (hstep : objFaceStep nrm st corners = some st') :
    2 ≤ corners.length ∧
    st'.indices = st.indices ++ faceIndices st.indicesCounter corners.length ∧
    st'.vertices.length = st.vertices.length + corners.length ∧
    (∀ v ∈ st'.vertices,
      (∃ w ∈ st.vertices, v.position = w.position) ∨ v.position ∈ st.tempVertices) ∧
    st'.indicesCounter = (st.indicesCounter + corners.length % U32) % U32 ∧
    st'.tempVertices = st.tempVertices ∧ st'.meshes = st.meshes ∧
    st'.minAabb = st.minAabb ∧ st'.maxAabb = st.maxAabb := by
  unfold objFaceStep at hstep
  split at hstep
  · exact absurd hstep (by simp)
  · rename_i hlen
    split at hstep
    · exact absurd hstep (by simp)
    · rename_i cn hcn
      split at hstep
      · exact absurd hstep (by simp)
      · rename_i newVerts hnv
        cases hstep
        refine ⟨by omega, rfl, ?_, ?_, rfl, rfl, rfl, rfl, rfl⟩
        · simp only [tangentPass_length, List.length_append]
          rw [mapOpt_length _ _ _ hnv]
        · intro v hv
          rcases tangentPass_pos nrm st.indicesCounter corners.length _ v hv with ⟨w, hw, he⟩
          rcases List.mem_append.1 hw with hw' | hw'
          · exact Or.inl ⟨w, hw', he⟩
          · rcases mapOpt_mem _ _ _ hnv w hw' with ⟨cref, _, hfv⟩
            exact Or.inr (he ▸ faceVertex_pos _ _ _ _ _ _ hfv)

theorem bounds_mono {lo hi lo' hi' p : V3} (hlo : V3.le lo' lo) (hhi : V3.le hi hi')
    (h : V3.le lo p ∧ V3.le p hi) : V3.le lo' p ∧ V3.le p hi' :=
  ⟨V3.le_trans hlo h.1, V3.le_trans h.2 hhi⟩

theorem flushMeshes_cases (st : ObjState) (name : String) (m : ObjMesh ObjVertex)
    (hm : m ∈ flushMeshes st name) :
    m ∈ st.meshes ∨ m = ⟨name, st.vertices, st.indices, st.currentMaterial⟩ := by
  unfold flushMeshes at hm
  split at hm
  · exact Or.inl hm
  · rcases List.mem_append.1 hm with h | h
    · exact Or.inl h
    · simp only [List.mem_singleton] at h
      exact Or.inr h

theorem objInv_init : objInv initObjState := by
  refine ⟨rfl, rfl, ?_, ?_, ?_, ?_, ?_⟩ <;> intro x hx <;> simp [initObjState] at hx

theorem objStep_inv (nrm : V3 → V3) (st : ObjState) (line : ObjLine) (st' : ObjState)
    (hstep : objStep nrm st line = some st') (hinv : objInv st) : objInv st' := by
  obtain ⟨h1, h2, h3, h4, h5, h6, h7⟩ := hinv
  have hflushInv : ∀ name, ∀ m ∈ flushMeshes st name, meshInv m := by
    intro name m hm
    rcases flushMeshes_cases st name m hm with h | rfl
    · exact h4 m h
    · exact ⟨h2, h3⟩
  have hflushBnd : ∀ name, ∀ m ∈ flushMeshes st name, ∀ v ∈ m.vertices,
      V3.le st.minAabb v.position ∧ V3.le v.position st.maxAabb := by
    intro name m hm v hv
    rcases flushMeshes_cases st name m hm with h | rfl
    · exact h7 m h v hv
    · exact h6 v hv
  cases line with
  | o name =>
    cases hstep
    exact ⟨rfl, rfl, by simp, hflushInv _, h5, by simp, hflushBnd _⟩
  | g name =>
    cases hstep
    exact ⟨rfl, rfl, by simp, hflushInv _, h5, by simp, hflushBnd _⟩
  | usemtl name =>
    cases hstep
    exact ⟨rfl, rfl, by simp, hflushInv _, h5, by simp, hflushBnd _⟩
  | v x y z =>
    cases hstep
    have hlo : V3.le (compMin st.minAabb ⟨x, y, z⟩) st.minAabb := compMin_le_left _ _
    have hhi : V3.le st.maxAabb (compMax st.maxAabb ⟨x, y, z⟩) := le_compMax_left _ _
    refine ⟨h1, h2, h3, h4, ?_, ?_, ?_⟩
    · intro p hp
      rcases List.mem_append.1 hp with h | h
      · exact bounds_mono hlo hhi (h5 p h)
      · simp only [List.mem_singleton] at h
        subst h
        exact ⟨compMin_le_right _ _, le_compMax_right _ _⟩
    · intro v hv
      exact bounds_mono hlo hhi (h6 v hv)
    · intro m hm v hv
      exact bounds_mono hlo hhi (h7 m hm v hv)
  | vn x y z =>
    cases hstep
    exact ⟨h1, h2, h3, h4, h5, h6, h7⟩
  | vt u w =>
    cases hstep
    exact ⟨h1, h2, h3, h4, h5, h6, h7⟩
  | mtllib mats =>
    cases hstep
    exact ⟨h1, h2, h3, h4, h5, h6, h7⟩
  | pLine => cases hstep; exact ⟨h1, h2, h3, h4, h5, h6, h7⟩
  | lLine => cases hstep; exact ⟨h1, h2, h3, h4, h5, h6, h7⟩
  | sLine => cases hstep; exact ⟨h1, h2, h3, h4, h5, h6, h7⟩
  | unknown => cases hstep; exact ⟨h1, h2, h3, h4, h5, h6, h7⟩
  | f corners =>
    obtain ⟨hn2, hind, hlen, hpos, hcnt, htv, hms, hmin, hmax⟩ :=
      objFaceStep_spec nrm st corners st' hstep
    refine ⟨?_, ?_, ?_, ?_, ?_, ?_, ?_⟩
    · rw [hcnt, hlen, h1]
      simp only [U32]
      omega
    · rw [hind]
      simp only [List.length_append, faceIndices_length]
      omega
    · intro ix hix
      rw [hind] at hix
      rw [hlen]
      rcases List.mem_append.1 hix with h | h
      · exact lt_of_lt_of_le (h3 ix h) (by omega)
      · rw [h1] at h
        exact faceIndices_bound st.vertices.length corners.length hn2 ix h
    · rw [hms]
      exact h4
    · rw [htv, hmin, hmax]
      exact h5
    · intro v hv
      rw [hmin, hmax]
      rcases hpos v hv with ⟨w, hw, he⟩ | hpool
      · exact he ▸ h6 w hw
      · exact h5 _ hpool
    · rw [hms, hmin, hmax]
      exact h7

/-- Characterisation of a successful OBJ parse through the loop invariant. -/
theorem load_obj_spec (nrm : V3 → V3) (lines : List ObjLine) (obj : Object ObjVertex)
    (h : load_obj nrm lines = some obj) :
    ∃ st : ObjState, objInv st ∧
      obj.meshes = st.meshes ++
        [⟨flushNameFinal st, st.vertices, st.indices, st.currentMaterial⟩] ∧
      obj.aabb = ⟨st.minAabb, st.maxAabb⟩ := by
  unfold load_obj at h
  cases hfold : foldOpt (objStep nrm) initObjState lines with
  | none => rw [hfold] at h; exact absurd h (by simp)
  | some st =>
    rw [hfold] at h
    cases h
    exact ⟨st, foldOpt_inv _ objInv
      (fun s a s' hP hf => objStep_inv nrm s a s' hf hP) lines initObjState st
      objInv_init hfold, rfl, rfl⟩

theorem load_obj_meshInv (nrm : V3 → V3) (lines : List ObjLine) (obj : Object ObjVertex)
    (h : load_obj nrm lines = some obj) : ∀ m ∈ obj.meshes, meshInv m := by
  obtain ⟨st, ⟨h1, h2, h3, h4, h5, h6, h7⟩, hms, _⟩ := load_obj_spec nrm lines obj h
  intro m hm
  rw [hms] at hm
  rcases List.mem_append.1 hm with hmem | hmem
  · exact h4 m hmem
  · simp only [List.mem_singleton] at hmem
    subst hmem
    exact ⟨h2, h3⟩

theorem load_obj_aabbInv (nrm : V3 → V3) (lines : List ObjLine) (obj : Object ObjVertex)
    (h : load_obj nrm lines = some obj) : aabbInv ObjVertex.position obj := by
  obtain ⟨st, ⟨h1, h2, h3, h4, h5, h6, h7⟩, hms, hab⟩ := load_obj_spec nrm lines obj h
  have hbnd : ∀ m ∈ obj.meshes, ∀ v ∈ m.vertices,
      V3.le st.minAabb v.position ∧ V3.le v.position st.maxAabb := by
    intro m hm v hv
    rw [hms] at hm
    rcases List.mem_append.1 hm with hmem | hmem
    · exact h7 m hmem v hv
    · simp only [List.mem_singleton] at hmem
      subst hmem
      exact h6 v hv
  intro ⟨m, hm, hne⟩
  obtain ⟨v, hv⟩ := List.exists_mem_of_ne_nil _ hne
  obtain ⟨hlov, hhiv⟩ := hbnd m hm v hv
  rw [hab]
  exact ⟨V3.le_trans hlov hhiv, fun m hm v hv => hbnd m hm v hv⟩

/-- Claim C3: every OBJ face directive with `n ≥ 3` corners is
fan-triangulated from corner 0, appending the `3*(n-2)` indices
`(base, base+i+1, base+i+2)` for `i` in `0..n-2` (stated away from the `u32`
wrap point, which real buffers never reach). -/
theorem claim_C3_fan_triangulation (nrm : V3 → V3) (st : ObjState)
    (corners : List FaceRef) (st' : ObjState)
    (hstep : objFaceStep nrm st corners = some st')
    (h3 : 3 ≤ corners.length)
    (hnw : st.indicesCounter + corners.length < U32) :
    st'.indices = st.indices ++ ((List.range (corners.length - 2)).bind fun i =>
      [st.indicesCounter, st.indicesCounter + i + 1, st.indicesCounter + i + 2]) ∧
    st'.indices.length = st.indices.length + 3 * (corners.length - 2) ∧
    st'.vertices.length = st.vertices.length + corners.length := by
  obtain ⟨hn2, hind, hlen, _, _, _, _, _, _⟩ := objFaceStep_spec nrm st corners st' hstep
  refine ⟨?_, ?_, hlen⟩
  · rw [hind, faceIndices_no_wrap st.indicesCounter corners.length hnw]
  · rw [hind]
    simp only [List.length_append, faceIndices_length]

/-- Witness for C3: the 4-corner face `f 1 2 3 4` in a fresh buffer yields
indices `[0, 1, 2, 0, 2, 3]`. -/
theorem claim_C3_fan_triangulation_witness :
    (objFaceStep idV3 st4demo quadFace).map ObjState.indices
      = some [0, 1, 2, 0, 2, 3] := by
  have hsome : (objFaceStep idV3 st4demo quadFace).isSome = true := rfl
  obtain ⟨st', hstep⟩ := Option.isSome_iff_exists.1 hsome
  obtain ⟨hind, _, _⟩ := claim_C3_fan_triangulation idV3 st4demo quadFace st' hstep
    (by decide) (by decide)
  rw [hstep, Option.map_some', hind]
  rfl

/-- Claim C8: a negative reference `k` with `-L ≤ k ≤ -1` into a pool of
length `L` resolves, in the OBJ corner logic and in the COLLADA polylist
logic alike, to the pool element at 0-based position `L + k`, which is the
element the positive 1-based reference `L + k + 1` resolves to in the OBJ
logic; in particular `-1` resolves to the last element. -/
theorem claim_C8_negative_refs {α : Type} (pool : List α) (k : ℤ)
    (h1 : -(pool.length : ℤ) ≤ k) (h2 : k ≤ -1) :
    fetch pool (resolveRef pool.length k)
        = pool.get? ((pool.length : ℤ) + k).toNat ∧
    fetch pool (resolveRef pool.length ((pool.length : ℤ) + k + 1))
        = pool.get? ((pool.length : ℤ) + k).toNat ∧
    (fetch pool (resolveDae pool.length k)
        = pool.get? ((pool.length : ℤ) + k).toNat) ∧
    (k = -1 → fetch pool (resolveRef pool.length k) = pool.getLast?) := by
  have hk0 : k < 0 := by omega
  have hpos : (0 : ℤ) ≤ (pool.length : ℤ) + k := by omega
  have hres : resolveRef pool.length k = (pool.length : ℤ) + k := by
    unfold resolveRef
    rw [if_pos hk0]
  have hresp : resolveRef pool.length ((pool.length : ℤ) + k + 1)
      = (pool.length : ℤ) + k := by
    unfold resolveRef
    rw [if_neg (by omega)]
    omega
  have hresd : resolveDae pool.length k = (pool.length : ℤ) + k := by
    unfold resolveDae
    rw [if_pos hk0]
  refine ⟨?_, ?_, ?_, ?_⟩
  · rw [hres]; unfold fetch; rw [if_pos hpos]
  · rw [hresp]; unfold fetch; rw [if_pos hpos]
  · rw [hresd]; unfold fetch; rw [if_pos hpos]
  · intro hk1
    subst hk1
    rw [hres]
    unfold fetch
    rw [if_pos hpos, List.getLast?_eq_get?]
    congr 1
    omega

/-- Witness for C8 at the pool `[10, 20, 30]` and `k = -1`: the negative
reference resolves to the last element `30`. -/
theorem claim_C8_negative_refs_witness :
    -(([10, 20, 30] : List ℕ).length : ℤ) ≤ -1 ∧ (-1 : ℤ) ≤ -1 ∧
    fetch ([10, 20, 30] : List ℕ)
      (resolveRef ([10, 20, 30] : List ℕ).length (-1)) = some 30 := by
  refine ⟨by decide, by decide, ?_⟩
  have h := (claim_C8_negative_refs ([10, 20, 30] : List ℕ) (-1)
    (by decide) (by decide)).1
  rw [h]
  rfl

/-- Claim C10: a successful OBJ parse always returns at least one Sub-mesh,
because the end-of-file flush appends unconditionally, while the flushes of
`o`, `g` and `usemtl` append only when the in-progress vertex buffer is
non-empty (so they append nothing on an empty buffer). -/
theorem claim_C10_nonempty_meshes (nrm : V3 → V3) (lines : List ObjLine)
    (obj : Object ObjVertex) (h : load_obj nrm lines = some obj) :
    obj.meshes ≠ [] ∧
    (∀ st : ObjState, st.vertices = [] → ∀ nm mn : Option String,
      (objStep nrm st (ObjLine.o nm)).map ObjState.meshes = some st.meshes ∧
      (objStep nrm st (ObjLine.g nm)).map ObjState.meshes = some st.meshes ∧
      (objStep nrm st (ObjLine.usemtl mn)).map ObjState.meshes = some st.meshes) := by
  constructor
  · obtain ⟨st, _, hms, _⟩ := load_obj_spec nrm lines obj h
    rw [hms]
    simp
  · intro st hempty nm mn
    have hflush : ∀ name, flushMeshes st name = st.meshes := by
      intro name
      unfold flushMeshes
      rw [if_pos (by rw [hempty]; rfl)]
    refine ⟨?_, ?_, ?_⟩ <;> simp only [objStep, Option.map_some', hflush]

/-- Witness for C10: the empty OBJ input yields exactly the one (empty)
default Sub-mesh, and the conditional flushes on an empty fresh state append
nothing. -/
theorem claim_C10_nonempty_meshes_witness :
    (∃ obj, load_obj idV3 [] = some obj ∧ obj.meshes ≠ []) ∧
    (objStep idV3 initObjState (ObjLine.o none)).map ObjState.meshes = some [] := by
  have h := claim_C10_nonempty_meshes idV3 [] _ rfl
  refine ⟨⟨_, rfl, h.1⟩, ?_⟩
  have h2 := (h.2 initObjState rfl none none).1
  exact h2

/-! STL lemmas. -/

theorem stlIndex_eq (k j : ℕ) : stlIndex k j = (3 * k + j) % U32 := by
  unfold stlIndex U32
  omega

theorem stlIndex_le (k j : ℕ) : stlIndex k j ≤ 3 * k + j := by
  rw [stlIndex_eq]
  exact Nat.mod_le _ _

theorem asciiInv_init : asciiInv initAsciiAcc := by
  refine ⟨rfl, rfl, ?_, ?_⟩ <;> intro x hx <;> simp [initAsciiAcc] at hx

theorem asciiStep_inv (acc : AsciiAcc) (line : StlLine) (acc' : AsciiAcc)
    (hstep : asciiStep acc line = some acc') (hinv : asciiInv acc) : asciiInv acc' := by
  obtain ⟨h1, h2, h3, h4⟩ := hinv
  cases line with
  | normalLn x y z => cases hstep; exact ⟨h1, h2, h3, h4⟩
  | vertexLn x y z => cases hstep; exact ⟨h1, h2, h3, h4⟩
  | otherLn => cases hstep; exact ⟨h1, h2, h3, h4⟩
  | endFacetLn =>
    simp only [asciiStep] at hstep
    unfold asciiEmit at hstep
    split at hstep
    · rename_i a b c rest heq
      cases hstep
      have hlo1 : V3.le (compMin (compMin (compMin acc.minAabb a) b) c) acc.minAabb :=
        V3.le_trans (compMin_le_left _ _)
          (V3.le_trans (compMin_le_left _ _) (compMin_le_left _ _))
      have hhi1 : V3.le acc.maxAabb (compMax (compMax (compMax acc.maxAabb a) b) c) :=
        V3.le_trans (le_compMax_left _ _)
          (V3.le_trans (le_compMax_left _ _) (le_compMax_left _ _))
      have hloa : V3.le (compMin (compMin (compMin acc.minAabb a) b) c) a :=
        V3.le_trans (compMin_le_left _ _)
          (V3.le_trans (compMin_le_left _ _) (compMin_le_right _ _))
      have hlob : V3.le (compMin (compMin (compMin acc.minAabb a) b) c) b :=
        V3.le_trans (compMin_le_left _ _) (compMin_le_right _ _)
      have hloc : V3.le (compMin (compMin (compMin acc.minAabb a) b) c) c :=
        compMin_le_right _ _
      have hhia : V3.le a (compMax (compMax (compMax acc.maxAabb a) b) c) :=
        V3.le_trans (le_compMax_right _ _)
          (V3.le_trans (le_compMax_left _ _) (le_compMax_left _ _))
      have hhib : V3.le b (compMax (compMax (compMax acc.maxAabb a) b) c) :=
        V3.le_trans (le_compMax_right _ _) (le_compMax_left _ _)
      have hhic : V3.le c (compMax (compMax (compMax acc.maxAabb a) b) c) :=
        le_compMax_right _ _
      refine ⟨?_, ?_, ?_, ?_⟩
      · simp only [List.length_append, List.length_cons, List.length_nil, h1]
        omega
      · simp only [List.length_append, List.length_cons, List.length_nil]
        omega
      · intro ix hix
        simp only [List.length_append, List.length_cons, List.length_nil]
        rcases List.mem_append.1 hix with h | h
        · have := h3 ix h
          omega
        · simp only [List.mem_cons, List.not_mem_nil, or_false] at h
          have e0 := stlIndex_le acc.triCount 0
          have e1 := stlIndex_le acc.triCount 1
          have e2 := stlIndex_le acc.triCount 2
          rcases h with rfl | rfl | rfl <;> omega
      · intro v hv
        rcases List.mem_append.1 hv with h | h
        · exact bounds_mono hlo1 hhi1 (h4 v h)
        · simp only [List.mem_cons, List.not_mem_nil, or_false] at h
          rcases h with rfl | rfl | rfl
          · exact ⟨hloa, hhia⟩
          · exact ⟨hlob, hhib⟩
          · exact ⟨hloc, hhic⟩
    · exact absurd hstep (by simp)

theorem parse_ascii_stl_spec (lines : List StlLine) (obj : Object Vertex)
    (h : parse_ascii_stl lines = some obj) :
    ∃ acc : AsciiAcc, asciiInv acc ∧
      obj.meshes = [⟨"default_mesh", acc.vertices, acc.indices, some Material.defaultMat⟩] ∧
      obj.aabb = ⟨acc.minAabb, acc.maxAabb⟩ := by
  unfold parse_ascii_stl at h
  cases hfold : foldOpt asciiStep initAsciiAcc lines with
  | none => rw [hfold] at h; exact absurd h (by simp)
  | some acc =>
    rw [hfold] at h
    cases h
    exact ⟨acc, foldOpt_inv _ asciiInv
      (fun s a s' hP hf => asciiStep_inv s a s' hf hP) lines initAsciiAcc acc
      asciiInv_init hfold, rfl, rfl⟩

theorem parse_ascii_stl_meshInv (lines : List StlLine) (obj : Object Vertex)
    (h : parse_ascii_stl lines = some obj) : ∀ m ∈ obj.meshes, meshInv m := by
  obtain ⟨acc, ⟨_, h2, h3, _⟩, hms, _⟩ := parse_ascii_stl_spec lines obj h
  intro m hm
  rw [hms] at hm
  simp only [List.mem_singleton] at hm
  subst hm
  exact ⟨h2, h3⟩

theorem parse_ascii_stl_aabbInv (lines : List StlLine) (obj : Object Vertex)
    (h : parse_ascii_stl lines = some obj) : aabbInv Vertex.position obj := by
  obtain ⟨acc, ⟨_, _, _, h4⟩, hms, hab⟩ := parse_ascii_stl_spec lines obj h
  intro ⟨m, hm, hne⟩
  rw [hms] at hm
  simp only [List.mem_singleton] at hm
  subst hm
  obtain ⟨v, hv⟩ := List.exists_mem_of_ne_nil _ hne
  obtain ⟨hlov, hhiv⟩ := h4 v hv
  rw [hab, hms]
  refine ⟨V3.le_trans hlov hhiv, ?_⟩
  intro m hm w hw
  simp only [List.mem_singleton] at hm
  subst hm
  exact h4 w hw

/-! Binary STL lemmas. -/

theorem triBufs_length : ∀ (n : ℕ) (rest buf : List ℕ), (triBufs rest buf n).length = n := by
  intro n
  induction n with
  | zero => intro rest buf; rfl
  | succ n ih => intro rest buf; simp only [triBufs, List.length_cons, ih]

theorem triBufs_exact : ∀ (n : ℕ) (records buf : List ℕ),
    records.length = 50 * n → buf.length = 50 →
    triBufs records buf n = (List.range n).map fun k => (records.drop (50 * k)).take 50 := by
  intro n
  induction n with
  | zero => intro records buf _ _; rfl
  | succ n ih =>
    intro records buf hrec hbuf
    have h50 : 50 ≤ records.length := by omega
    have hmin : min records.length 50 = 50 := by omega
    have hdropbuf : buf.drop 50 = [] := by
      apply List.drop_eq_nil_of_le
      omega
    have hbuf' : records.take 50 ++ buf.drop (min records.length 50) = records.take 50 := by
      rw [hmin, hdropbuf, List.append_nil]
    have htake : (records.take 50).length = 50 := by
      rw [List.length_take]
      omega
    simp only [triBufs]
    rw [hbuf']
    rw [ih (records.drop 50) (records.take 50)
      (by rw [List.length_drop]; omega) htake]
    rw [List.range_succ_eq_map, List.map_cons, List.map_map, Nat.mul_zero,
      List.drop_zero]
    congr 1
    apply List.map_congr_left
    intro k _
    simp only [Function.comp_apply]
    rw [List.drop_drop]
    congr 2
    omega

theorem tri_bind_normal_get? (bufs : List (List ℕ)) :
    ∀ (k j : ℕ), j < 3 →
    (((bufs.bind fun b =>
        [(⟨(recVerts b).1, recNormal b, (0, 0)⟩ : BVertex),
         ⟨(recVerts b).2.1, recNormal b, (0, 0)⟩,
         ⟨(recVerts b).2.2, recNormal b, (0, 0)⟩]).get? (3 * k + j)).map BVertex.normal)
      = (bufs.get? k).map recNormal := by
  induction bufs with
  | nil => intro k j _; simp
  | cons b bufs ih =>
    intro k j hj
    simp only [List.cons_bind]
    cases k with
    | zero =>
      interval_cases j <;> rfl
    | succ k =>
      have hlen : (3 : ℕ) ≤ 3 * (k + 1) + j := by omega
      rw [List.get?_append_right (by simpa using hlen)]
      simp only [List.length_cons, List.length_nil]
      rw [show 3 * (k + 1) + j - (0 + 1 + 1 + 1) = 3 * k + j by omega]
      rw [ih k j hj]
      rfl

theorem range_mul3_map (n : ℕ) (f : ℕ → ℕ) :
    (List.range (3 * n)).map f
      = (List.range n).bind fun k => [f (3 * k), f (3 * k + 1), f (3 * k + 2)] := by
  induction n with
  | zero => rfl
  | succ n ih =>
    rw [show 3 * (n + 1) = (3 * n + 1) + 1 + 1 by omega]
    rw [List.range_succ, List.range_succ, List.range_succ, List.range_succ]
    simp only [List.map_append, List.append_bind, ih]
    simp [List.bind]

theorem declaredCount_exact (hdr : List ℕ) (n : ℕ) (records : List ℕ)
    (hhdr : hdr.length = 80) (hn : n < U32) :
    declaredCount (hdr ++ u32bytes n ++ records) = n := by
  unfold declaredCount
  have h1 : (hdr ++ u32bytes n ++ records).drop 80 = u32bytes n ++ records := by
    rw [List.append_assoc, ← hhdr, List.drop_left]
  rw [h1]
  have h2 : (u32bytes n ++ records).take 4 = u32bytes n := by
    have : (u32bytes n).length = 4 := rfl
    rw [← this, List.take_left]
  rw [h2]
  show u32le (n % 256) (n / 256 % 256) (n / 65536 % 256) (n / 16777216 % 256) = n
  simp only [u32le]
  unfold U32 at hn
  omega

theorem binary_rest_exact (hdr : List ℕ) (n : ℕ) (records : List ℕ)
    (hhdr : hdr.length = 80) :
    (hdr ++ u32bytes n ++ records).drop 84 = records := by
  have : (hdr ++ u32bytes n).length = 84 := by
    simp only [List.length_append, hhdr]
    rfl
  rw [← this, List.drop_left]

/-- Claim C7: a complete binary STL input (80-byte header, little-endian
count `N`, exactly `N` 50-byte records) yields one Sub-mesh with `3N`
vertices, sequential indices (in `u32` arithmetic, literally `0..3N-1`
whenever `3N` does not exceed the `u32` range), and the three vertices of
record `k` all carry that record's normal words. -/
theorem claim_C7_binary_stl (wmin wmax : W3 → W3 → W3) (hdr records : List ℕ)
    (n : ℕ) (hhdr : hdr.length = 80) (hn : n < U32)
    (hrec : records.length = 50 * n) :
    ∃ m : ObjMesh BVertex,
      (parse_binary_stl wmin wmax (hdr ++ u32bytes n ++ records)).meshes = [m] ∧
      m.vertices.length = 3 * n ∧
      m.indices = (List.range (3 * n)).map (· % U32) ∧
      (3 * n ≤ U32 → m.indices = List.range (3 * n)) ∧
      (∀ k < n, ∀ j < 3,
        (m.vertices.get? (3 * k + j)).map BVertex.normal
          = some (recNormal ((records.drop (50 * k)).take 50))) := by
  have hcount := declaredCount_exact hdr n records hhdr hn
  have hrest := binary_rest_exact hdr n records hhdr
  have hbufs : triBufs ((hdr ++ u32bytes n ++ records).drop 84) (List.replicate 50 0)
      (declaredCount (hdr ++ u32bytes n ++ records))
      = (List.range n).map fun k => (records.drop (50 * k)).take 50 := by
    rw [hcount, hrest]
    exact triBufs_exact n records _ hrec (by simp)
  refine ⟨_, rfl, ?_, ?_, ?_, ?_⟩
  · show (_ : List BVertex).length = 3 * n
    rw [hbufs, length_bind_cons3]
    simp
  · show (List.range (triBufs _ _ _).length).bind _ = _
    rw [hbufs, List.length_map, List.length_range]
    rw [range_mul3_map n (· % U32)]
    apply bind_congr_mem
    intro k _
    rw [stlIndex_eq, stlIndex_eq, stlIndex_eq]
    simp
  · intro h32
    show (List.range (triBufs _ _ _).length).bind _ = _
    rw [hbufs, List.length_map, List.length_range]
    have : List.range (3 * n) = (List.range (3 * n)).map id := by simp
    rw [this, range_mul3_map n id]
    apply bind_congr_mem
    intro k hk
    have hk3 : k < n := List.mem_range.1 hk
    rw [stlIndex_eq, stlIndex_eq, stlIndex_eq]
    simp only [id]
    rw [Nat.mod_eq_of_lt (by omega), Nat.mod_eq_of_lt (by omega),
      Nat.mod_eq_of_lt (by omega)]
    simp
  · intro k hk j hj
    show ((_ : List BVertex).get? _).map _ = _
    rw [hbufs]
    rw [tri_bind_normal_get? _ k j hj]
    rw [List.get?_map, List.get?_range hk]
    rfl

/-- Witness for C7 at `N = 1` (zero header, record bytes `0..49`): three
vertices, indices `[0, 1, 2]`, all three normals equal to the record's
normal words. -/
theorem claim_C7_binary_stl_witness :
    ∃ m : ObjMesh BVertex,
      (parse_binary_stl (fun a _ => a) (fun a _ => a)
        (List.replicate 80 0 ++ u32bytes 1 ++ List.range 50)).meshes = [m] ∧
      m.vertices.length = 3 ∧ m.indices = [0, 1, 2] ∧
      (m.vertices.get? 0).map BVertex.normal
        = some (recNormal (List.range 50)) := by
  obtain ⟨m, hms, hlen, _, hplain, hnorm⟩ :=
    claim_C7_binary_stl (fun a _ => a) (fun a _ => a) (List.replicate 80 0)
      (List.range 50) 1 (by simp) (by decide) (by simp)
  refine ⟨m, hms, hlen, ?_, ?_⟩
  · rw [hplain (by decide)]
    rfl
  · have := hnorm 0 (by decide) 0 (by decide)
    simpa using this

/-- Counterexample to C5 as stated: a binary STL input declaring 2 triangles
but ending immediately after the count (no record bytes at all) still emits
2 triangles (6 vertices, 6 indices) — iteration does not stop at
end-of-input. -/
theorem claim_C5_counterexample :
    truncatedStlBytes.length = 84 ∧
    declaredCount truncatedStlBytes = 2 ∧
    (parse_binary_stl (fun a _ => a) (fun a _ => a) truncatedStlBytes).meshes.map
      (fun m => (m.vertices.length, m.indices.length)) = [(6, 6)] := by
  refine ⟨by decide, by decide, by decide⟩

/-- Amended C5: on a truncated binary STL input the `read_exact` failure is
discarded, so iteration continues to the declared count regardless of how
many bytes remain, emitting one triangle per declared record (decoded from
the partially updated, otherwise stale buffer) and raising no error. -/
theorem claim_C5_amended_no_early_stop (wmin wmax : W3 → W3 → W3) (bytes : List ℕ) :
    ∃ m : ObjMesh BVertex,
      (parse_binary_stl wmin wmax bytes).meshes = [m] ∧
      m.vertices.length = 3 * declaredCount bytes ∧
      m.indices.length = 3 * declaredCount bytes := by
  refine ⟨_, rfl, ?_, ?_⟩
  · show (_ : List BVertex).length = _
    rw [length_bind_cons3, triBufs_length]
  · show ((List.range (triBufs _ _ _).length).bind _).length = _
    rw [length_bind_cons3, List.length_range, triBufs_length]

theorem parse_binary_stl_meshInv (wmin wmax : W3 → W3 → W3) (bytes : List ℕ) :
    ∀ m ∈ (parse_binary_stl wmin wmax bytes).meshes, meshInv m := by
  intro m hm
  simp only [parse_binary_stl, List.mem_singleton] at hm
  subst hm
  constructor
  · show ((List.range (triBufs _ _ _).length).bind _).length % 3 = 0
    rw [length_bind_cons3]
    omega
  · intro ix hix
    have hvlen : (((triBufs (bytes.drop 84) (List.replicate 50 0) (declaredCount bytes)).bind
        fun b => [(⟨(recVerts b).1, recNormal b, (0, 0)⟩ : BVertex),
          ⟨(recVerts b).2.1, recNormal b, (0, 0)⟩,
          ⟨(recVerts b).2.2, recNormal b, (0, 0)⟩]) : List BVertex).length
        = 3 * declaredCount bytes := by
      rw [length_bind_cons3, triBufs_length]
    rcases List.mem_bind.1 hix with ⟨k, hk, hmem⟩
    have hkn : k < declaredCount bytes := by
      have := List.mem_range.1 hk
      rwa [triBufs_length] at this
    simp only [List.mem_cons, List.not_mem_nil, or_false] at hmem
    show ix < (_ : List BVertex).length
    rw [hvlen]
    have e0 := stlIndex_le k 0
    have e1 := stlIndex_le k 1
    have e2 := stlIndex_le k 2
    rcases hmem with rfl | rfl | rfl <;> omega

/-! Dispatcher and COLLADA error-path theorems. -/

/-- Counterexample to C6 as stated: an unrecognised extension (even `dae`,
which this dispatcher does not handle) makes `load_from_file` panic
(`PResult.fault`), and so does an absent extension; no `UnsupportedFormat`
error value is returned (none exists in the code). -/
theorem claim_C6_counterexample :
    SupportedFileExtensions.from_str "dae" = none ∧
    load_from_file (some "dae") = PResult.fault ∧
    load_from_file none = PResult.fault ∧
    ∀ msg, load_from_file (some "dae") ≠ PResult.err msg := by
  have hfault : load_from_file (some "dae") = PResult.fault := by decide
  refine ⟨by decide, hfault, by decide, ?_⟩
  intro msg h
  rw [hfault] at h
  exact PResult.noConfusion h

/-- Amended C6: for every path whose extension is absent or not one of the
recognised ones (`obj`, `stl`, case-insensitively), the dispatcher panics
(process abort) rather than returning an error value; callers pre-filter such
paths before calling it. -/
theorem claim_C6_amended_dispatch_panics :
    load_from_file none = PResult.fault ∧
    ∀ s : String, SupportedFileExtensions.from_str s = none →
      load_from_file (some s) = PResult.fault := by
  refine ⟨rfl, ?_⟩
  intro s hs
  show (match SupportedFileExtensions.from_str s with
    | some fmt => PResult.ok fmt
    | none => PResult.fault) = PResult.fault
  rw [hs]

/-- Witness for the amended C6 at the concrete extension `xyz`. -/
theorem claim_C6_amended_dispatch_panics_witness :
    SupportedFileExtensions.from_str "xyz" = none ∧
    load_from_file (some "xyz") = PResult.fault :=
  ⟨by decide, claim_C6_amended_dispatch_panics.2 "xyz" (by decide)⟩

/-- Counterexample to C9 as stated: a document whose `<scene>` references a
visual-scene id absent from the libraries panics
(`visual_scenes.get(vs_url).unwrap()`) instead of returning a descriptive
error value. -/
theorem claim_C9_counterexample :
    parse_dae idV3 missingSceneDoc = PResult.fault ∧
    ∀ msg, parse_dae idV3 missingSceneDoc ≠ PResult.err msg := by
  refine ⟨rfl, ?_⟩
  intro msg h
  rw [show parse_dae idV3 missingSceneDoc = PResult.fault from rfl] at h
  exact PResult.noConfusion h

/-- Amended C9: of the three scene-resolution conditions, a referenced
visual-scene id missing from the map is a panic (`fault`), while a scene with
no NODE-typed top-level node and a scene whose top-level nodes hold no
geometry instance are descriptive error values. -/
theorem claim_C9_amended_scene_errors (nrm : V3 → V3) (root : ColladaDocument)
    (maps : (String → Option VisualScene) × (String → Option Geometry) ×
      (String → Option ColMaterial) × (String → Option Effect))
    (hmaps : daeMaps root.libraries = some maps)
    (s : ColladaScene) (hs : root.scene = some s)
    (ivs : InstanceVisualScene) (hivs : s.instanceVisualScene = some ivs) :
    (maps.1 (ivs.url.drop 1) = none → parse_dae nrm root = PResult.fault) ∧
    (∀ vscene, maps.1 (ivs.url.drop 1) = some vscene →
      ((vscene.nodes.all fun node => node.typ ≠ NodeType.node) = true →
        parse_dae nrm root = PResult.err
          "Visual Scene does not contain any supported nodes. JOINT nodes are not implemented yet") ∧
      ((vscene.nodes.all fun node => node.typ ≠ NodeType.node) = false →
        (vscene.nodes.all fun node => node.instanceGeometry.isEmpty) = true →
        parse_dae nrm root = PResult.err
          "No top-level node in the visual scene contains an instance of a mesh. Controller instances are not implemented yet")) := by
  obtain ⟨ms, mg, mm, me⟩ := maps
  refine ⟨?_, ?_⟩
  · intro hnone
    simp only at hnone
    unfold parse_dae
    rw [hmaps, hs]
    dsimp only
    rw [hivs]
    dsimp only
    rw [hnone]
  · intro vscene hsome
    simp only at hsome
    refine ⟨?_, ?_⟩
    · intro hall
      unfold parse_dae
      rw [hmaps, hs]
      dsimp only
      rw [hivs]
      dsimp only
      rw [hsome]
      dsimp only
      rw [if_pos hall]
    · intro hnall hallg
      unfold parse_dae
      rw [hmaps, hs]
      dsimp only
      rw [hivs]
      dsimp only
      rw [hsome]
      dsimp only
      rw [if_neg (by rw [hnall]; exact Bool.false_ne_true), if_pos hallg]

/-- Witness for the amended C9: the concrete missing-scene document hits the
`fault` branch. -/
theorem claim_C9_amended_scene_errors_witness :
    parse_dae idV3 missingSceneDoc = PResult.fault := by
  have h := claim_C9_amended_scene_errors idV3 missingSceneDoc
    (fun _ => none, fun _ => none, fun _ => none, fun _ => none) rfl
    ⟨some ⟨"#missing"⟩⟩ rfl ⟨"#missing"⟩ rfl
  exact h.1 rfl

/-- Counterexample to C4 as stated: in `parse_triangles` with a NORMAL input
at offset 1 (`max_offset = 2`) and `<p> = [0,0, 1,1, 2,2]`, the claim
predicts corner 1's normal index to be read at `1 * 2 + 1` (value 1, normal
`(0,1,0)`), but the code reads the normal index once per triangle at position
1 of the chunk (corner 0's slot, value 0) and gives all three corners normal
`(1,0,0)`. -/
theorem claim_C4_counterexample :
    (parse_triangles "n" demoTriangles demoPositions (-1) [] (-1) []
        (buildSources demoSources)).map (fun m => m.vertices.map Vertex.normal)
      = some [⟨1, 0, 0⟩, ⟨1, 0, 0⟩, ⟨1, 0, 0⟩] ∧
    (demoTriangles.p.getD []).get? (1 * 2 + 1) = some 1 ∧
    (chunks3 [1, 0, 0, 0, 1, 0, 0, 0, 1]).get? 1 = some ⟨0, 1, 0⟩ ∧
    (⟨1, 0, 0⟩ : V3) ≠ ⟨0, 1, 0⟩ := by
  refine ⟨by decide, rfl, rfl, by decide⟩

/-! COLLADA resolution lemmas. -/

theorem join_length_const3 {α : Type} (L : List (List α)) (h : ∀ x ∈ L, x.length = 3) :
    L.join.length = 3 * L.length := by
  induction L with
  | nil => rfl
  | cons a L ih =>
    simp only [List.join_cons, List.length_append, List.length_cons]
    rw [h a (by simp), ih fun x hx => h x (by simp [hx])]
    omega

theorem triChunkVerts_spec (nOff : ℤ) (maxOff : ℕ) (normals : List V3) (tOff : ℤ)
    (texCoords : List V2) (positions : List V3) (ch : List ℕ) (verts : List Vertex)
    (h : triChunkVerts nOff maxOff normals tOff texCoords positions ch = some verts) :
    verts.length = 3 ∧
    (∀ v ∈ verts, v.position ∈ positions) ∧
    (∀ j, j < 3 → ∃ v pidx, verts.get? j = some v ∧
      ch.get? (j * maxOff) = some pidx ∧ positions.get? pidx = some v.position) ∧
    (∀ v ∈ verts, ∀ w ∈ verts, v.normal = w.normal ∧ v.texCoords = w.texCoords) ∧
    (nOff ≠ -1 → ∃ nidx nv, ch.get? nOff.toNat = some nidx ∧
      normals.get? nidx = some nv ∧ ∀ v ∈ verts, v.normal = nv) := by
  unfold triChunkVerts at h
  split at h
  · exact absurd h (by simp)
  · rename_i norm hnorm
    split at h
    · exact absurd h (by simp)
    · rename_i texc htexc
      have hmem : ∀ v ∈ verts,
          v.normal = norm ∧ v.texCoords = texc ∧ v.position ∈ positions := by
        intro v hv
        obtain ⟨j, _, hfj⟩ := mapOpt_mem _ _ _ h v hv
        split at hfj
        · exact absurd hfj (by simp)
        · rename_i pidx hpidx
          split at hfj
          · exact absurd hfj (by simp)
          · rename_i pos hpos
            cases hfj
            exact ⟨rfl, rfl, List.get?_mem hpos⟩
      have hlenv : verts.length = 3 := by
        have := mapOpt_length _ _ _ h
        simpa using this
      refine ⟨hlenv, fun v hv => (hmem v hv).2.2, ?_, ?_, ?_⟩
      · intro j hj
        have hg := mapOpt_get? _ _ _ h j (by simpa using hj)
        have hj' : ([0, 1, 2] : List ℕ).get? j = some j := by
          interval_cases j <;> rfl
        rw [hj'] at hg
        cases hv : verts.get? j with
        | none =>
          have := List.get?_eq_none.1 hv
          omega
        | some v =>
          rw [hv] at hg
          simp only [Option.some_bind] at hg
          split at hg
          · exact absurd hg (by simp)
          · rename_i pidx hpidx
            split at hg
            · exact absurd hg (by simp)
            · rename_i pos hpos
              cases hg
              exact ⟨_, pidx, rfl, hpidx, hpos⟩
      · intro v hv w hw
        exact ⟨(hmem v hv).1.trans (hmem w hw).1.symm,
          (hmem v hv).2.1.trans (hmem w hw).2.1.symm⟩
      · intro hne
        rw [if_pos hne] at hnorm
        obtain ⟨nidx, hnidx, hnv⟩ := Option.bind_eq_some.1 hnorm
        exact ⟨nidx, norm, hnidx, hnv, fun v hv => (hmem v hv).1⟩

theorem parse_triangles_spec (nodeName : String) (t : Triangles) (positions : List V3)
    (nOff0 : ℤ) (normals0 : List V3) (tOff0 : ℤ) (tex0 : List V2)
    (sources : String → Option (List ℚ)) (m : ObjMesh Vertex)
    (h : parse_triangles nodeName t positions nOff0 normals0 tOff0 tex0 sources = some m) :
    meshInv m ∧ ∀ v ∈ m.vertices, v.position ∈ positions := by
  unfold parse_triangles at h
  split at h
  · exact absurd h (by simp)
  · rename_i p hp
    split at h
    · exact absurd h (by simp)
    · rename_i nOff maxOff normals tOff texCoords hscan
      dsimp only at h
      split at h
      · exact absurd h (by simp)
      · rename_i triples hmap
        cases h
        have hlen3 : ∀ x ∈ triples, x.length = 3 := by
          intro x hx
          obtain ⟨ch, _, hch⟩ := mapOpt_mem _ _ _ hmap x hx
          exact (triChunkVerts_spec _ _ _ _ _ _ _ _ hch).1
        have hjoin : triples.join.length = 3 * triples.length :=
          join_length_const3 _ hlen3
        have htl : triples.length = (chunksE (3 * maxOff) p).length :=
          mapOpt_length _ _ _ hmap
        constructor
        · constructor
          · show ((List.range (chunksE (3 * maxOff) p).length).bind _).length % 3 = 0
            rw [length_bind_cons3]
            omega
          · intro ix hix
            show ix < triples.join.length
            rcases List.mem_bind.1 hix with ⟨i, hi, hmem⟩
            have hi' : i < (chunksE (3 * maxOff) p).length := List.mem_range.1 hi
            simp only [List.mem_cons, List.not_mem_nil, or_false] at hmem
            have b0 : (3 * i) % U32 ≤ 3 * i := Nat.mod_le _ _
            have b1 : ((3 * i) % U32 + 1) % U32 ≤ (3 * i) % U32 + 1 := Nat.mod_le _ _
            have b2 : ((3 * i) % U32 + 2) % U32 ≤ (3 * i) % U32 + 2 := Nat.mod_le _ _
            rw [hjoin, htl]
            rcases hmem with rfl | rfl | rfl <;> omega
        · intro v hv
          obtain ⟨tri, htri, hvtri⟩ := List.mem_join.1 hv
          obtain ⟨ch, _, hch⟩ := mapOpt_mem _ _ _ hmap tri htri
          exact (triChunkVerts_spec _ _ _ _ _ _ _ _ hch).2.1 v hvtri

theorem polylistFace_inv (nrm : V3 → V3) (positions normals : List V3)
    (texCoords : List V2) (nOff tOff : ℤ) (maxOff : ℕ) (p : List ℤ)
    (acc : List Vertex × List ℕ × ℕ × ℕ) (vcount : ℕ)
    (out : List Vertex × List ℕ × ℕ × ℕ)
    (h : polylistFace nrm positions normals texCoords nOff tOff maxOff p acc vcount = some out)
    (hinv : polyInv positions acc) : polyInv positions out := by
  obtain ⟨vs, ixs, skipBy, counter⟩ := acc
  obtain ⟨h1, h2, h3, h4⟩ := hinv
  simp only at h1 h2 h3 h4
  unfold polylistFace at h
  dsimp only at h
  split at h
  · exact absurd h (by simp)
  · rename_i poly hpoly
    split at h
    · exact absurd h (by simp)
    · rename_i norm hnorm
      split at h
      · exact absurd h (by simp)
      · rename_i texc htexc
        split at h
        · exact absurd h (by simp)
        · rename_i newVs hnew
          split at h
          · exact absurd h (by simp)
          · rename_i hv2
            cases h
            have hnewlen : newVs.length = vcount := by
              have := mapOpt_length _ _ _ hnew
              simpa using this
            have hnewmem : ∀ v ∈ newVs, v.position ∈ positions := by
              intro v hv
              obtain ⟨j, _, hfj⟩ := mapOpt_mem _ _ _ hnew v hv
              split at hfj
              · exact absurd hfj (by simp)
              · rename_i pidx hpidx
                split at hfj
                · exact absurd hfj (by simp)
                · rename_i pos hpos
                  cases hfj
                  exact fetch_mem _ _ _ hpos
            refine ⟨?_, ?_, ?_, ?_⟩
            · show (counter + vcount) % U32 = (vs ++ newVs).length % U32
              rw [List.length_append, hnewlen, h1]
              simp only [U32]
              omega
            · show (ixs ++ _).length % 3 = 0
              rw [List.length_append, length_bind_cons3, List.length_range]
              omega
            · intro ix hix
              show ix < (vs ++ newVs).length
              rw [List.length_append, hnewlen]
              rcases List.mem_append.1 hix with hx | hx
              · have := h3 ix hx
                omega
              · rcases List.mem_bind.1 hx with ⟨j, hj, hmem⟩
                have hj' : j < vcount - 2 := List.mem_range.1 hj
                simp only [List.mem_cons, List.not_mem_nil, or_false] at hmem
                have hc : counter ≤ vs.length := h1 ▸ Nat.mod_le _ _
                have b1 : (counter + j + 1) % U32 ≤ counter + j + 1 := Nat.mod_le _ _
                have b2 : (counter + j + 2) % U32 ≤ counter + j + 2 := Nat.mod_le _ _
                rcases hmem with rfl | rfl | rfl <;> omega
            · intro v hv
              rcases List.mem_append.1 hv with hx | hx
              · exact h4 v hx
              · exact hnewmem v hx

theorem parse_polylist_spec (nrm : V3 → V3) (nodeName : String) (pl : PolyList)
    (positions : List V3) (nOff0 : ℤ) (normals0 : List V3) (tOff0 : ℤ)
    (tex0 : List V2) (sources : String → Option (List ℚ)) (m : ObjMesh Vertex)
    (h : parse_polylist nrm nodeName pl positions nOff0 normals0 tOff0 tex0 sources = some m) :
    meshInv m ∧ ∀ v ∈ m.vertices, v.position ∈ positions := by
  unfold parse_polylist at h
  split at h
  · exact absurd h (by simp)
  · rename_i p hp
    split at h
    · exact absurd h (by simp)
    · rename_i vcounts hvc
      split at h
      · exact absurd h (by simp)
      · rename_i nOff maxOff normals tOff texCoords hscan
        split at h
        · rename_i hcount
          split at h
          · exact absurd h (by simp)
          · rename_i vertices indices sb ct hfold
            cases h
            have hinv := foldOpt_inv _ (polyInv positions)
              (fun s a s' hP hf =>
                polylistFace_inv nrm positions normals texCoords nOff tOff maxOff p s a s' hf hP)
              vcounts ([], [], 0, 0) _ ⟨rfl, rfl, by simp, by simp⟩ hfold
            obtain ⟨_, hi2, hi3, hi4⟩ := hinv
            exact ⟨⟨hi2, hi3⟩, hi4⟩
        · exact absurd h (by simp)

theorem parse_vertices_spec (inputs : List InputUnshared)
    (sources : String → Option (List ℚ)) (minA maxA : V3) (vd : VertData)
    (h : parse_vertices inputs sources minA maxA = some vd) :
    V3.le vd.minAabb minA ∧ V3.le maxA vd.maxAabb ∧
    ∀ q ∈ vd.positions, V3.le vd.minAabb q ∧ V3.le q vd.maxAabb := by
  unfold parse_vertices at h
  refine foldOpt_inv _ (fun vd' => V3.le vd'.minAabb minA ∧ V3.le maxA vd'.maxAabb ∧
    ∀ q ∈ vd'.positions, V3.le vd'.minAabb q ∧ V3.le q vd'.maxAabb)
    ?_ inputs _ vd ⟨V3.le_refl _, V3.le_refl _, by simp⟩ h
  intro vd' inp vd'' hP hstep
  obtain ⟨hp1, hp2, hp3⟩ := hP
  cases hsem : inp.semantic with
  | position =>
    rw [hsem] at hstep
    simp only at hstep
    cases hsrc : sources (inp.source.drop 1) with
    | none => rw [hsrc] at hstep; exact absurd hstep (by simp)
    | some dat =>
      rw [hsrc] at hstep
      cases hstep
      refine ⟨V3.le_trans (foldl_compMin_le_init _ _) hp1,
        V3.le_trans hp2 (init_le_foldl_compMax _ _), ?_⟩
      intro q hq
      exact ⟨foldl_compMin_le_mem _ _ q hq, mem_le_foldl_compMax _ _ q hq⟩
  | normal =>
    rw [hsem] at hstep
    simp only at hstep
    cases hsrc : sources (inp.source.drop 1) with
    | none => rw [hsrc] at hstep; exact absurd hstep (by simp)
    | some dat =>
      rw [hsrc] at hstep
      cases hstep
      exact ⟨hp1, hp2, hp3⟩
  | texcoord =>
    rw [hsem] at hstep
    simp only at hstep
    cases hsrc : sources (inp.source.drop 1) with
    | none => rw [hsrc] at hstep; exact absurd hstep (by simp)
    | some dat =>
      rw [hsrc] at hstep
      cases hstep
      exact ⟨hp1, hp2, hp3⟩
  | otherSem =>
    rw [hsem] at hstep
    simp only at hstep
    cases hstep
    exact ⟨hp1, hp2, hp3⟩

theorem processInstance_inv (nrm : V3 → V3) (geoms : String → Option Geometry)
    (nodeName : String) (acc : List (ObjMesh Vertex) × V3 × V3)
    (gi : GeometryInstance) (acc' : List (ObjMesh Vertex) × V3 × V3)
    (h : processInstance nrm geoms nodeName acc gi = some acc')
    (hinv : daeInv acc) : daeInv acc' := by
  unfold processInstance at h
  split at h
  · exact absurd h (by simp)
  · rename_i geometry hgeo
    split at h
    · cases h
      exact hinv
    · rename_i mesh hge
      split at h
      · exact absurd h (by simp)
      · rename_i vd hvd
        split at h
        · exact absurd h (by simp)
        · rename_i meshes hmeshes
          cases h
          obtain ⟨hmin, hmax, hpos⟩ := parse_vertices_spec _ _ _ _ _ hvd
          have hQ := foldOpt_inv _ (fun ms : List (ObjMesh Vertex) =>
              (∀ m ∈ ms, meshInv m) ∧
              (∀ m ∈ ms, ∀ v ∈ m.vertices,
                V3.le vd.minAabb v.position ∧ V3.le v.position vd.maxAabb))
            (fun ms prim ms' hP hstep => by
              cases prim with
              | triangles t =>
                simp only at hstep
                split at hstep
                · split at hstep
                  · exact absurd hstep (by simp)
                  · rename_i m htp
                    cases hstep
                    obtain ⟨hmi, hmp⟩ := parse_triangles_spec _ _ _ _ _ _ _ _ _ htp
                    refine ⟨?_, ?_⟩
                    · intro m' hm'
                      rcases List.mem_append.1 hm' with hx | hx
                      · exact hP.1 m' hx
                      · simp only [List.mem_singleton] at hx
                        subst hx
                        exact hmi
                    · intro m' hm' v hv
                      rcases List.mem_append.1 hm' with hx | hx
                      · exact hP.2 m' hx v hv
                      · simp only [List.mem_singleton] at hx
                        subst hx
                        exact hpos _ (hmp v hv)
                · cases hstep
                  exact hP
              | polyList pl =>
                simp only at hstep
                split at hstep
                · split at hstep
                  · exact absurd hstep (by simp)
                  · rename_i m htp
                    cases hstep
                    obtain ⟨hmi, hmp⟩ := parse_polylist_spec _ _ _ _ _ _ _ _ _ _ htp
                    refine ⟨?_, ?_⟩
                    · intro m' hm'
                      rcases List.mem_append.1 hm' with hx | hx
                      · exact hP.1 m' hx
                      · simp only [List.mem_singleton] at hx
                        subst hx
                        exact hmi
                    · intro m' hm' v hv
                      rcases List.mem_append.1 hm' with hx | hx
                      · exact hP.2 m' hx v hv
                      · simp only [List.mem_singleton] at hx
                        subst hx
                        exact hpos _ (hmp v hv)
                · cases hstep
                  exact hP
              | otherPrim =>
                simp only at hstep
                cases hstep
                exact hP)
            mesh.primitives acc.1 meshes
            ⟨hinv.1, fun m hm v hv => bounds_mono hmin hmax (hinv.2 m hm v hv)⟩ hmeshes
          exact ⟨hQ.1, hQ.2⟩

theorem processNodes_inv (nrm : V3 → V3) (geoms : String → Option Geometry)
    (nodes : List ColladaNode) (start fin : List (ObjMesh Vertex) × V3 × V3)
    (h : processNodes nrm geoms nodes start = some fin) (hinv : daeInv start) :
    daeInv fin := by
  unfold processNodes at h
  refine foldOpt_inv _ daeInv ?_ nodes start fin hinv h
  intro s node s' hP hstep
  cases node with
  | mk name typ instanceGeometry =>
    cases typ with
    | joint =>
      simp only at hstep
      cases hstep
      exact hP
    | node =>
      simp only at hstep
      exact foldOpt_inv _ daeInv
        (fun a b a' hQ hf => processInstance_inv nrm geoms _ a b a' hf hQ)
        instanceGeometry s s' hP hstep

theorem parse_dae_ok_spec (nrm : V3 → V3) (root : ColladaDocument)
    (obj : Object Vertex) (h : parse_dae nrm root = PResult.ok obj) :
    (∀ m ∈ obj.meshes, meshInv m) ∧ aabbInv Vertex.position obj := by
  unfold parse_dae at h
  split at h
  · exact absurd h (by simp)
  · rename_i visualScenes geometries mm me hmaps
    split at h
    · cases h
      refine ⟨by simp, ?_⟩
      intro ⟨m, hm, _⟩
      simp at hm
    · rename_i s hs
      split at h
      · exact absurd h (by simp)
      · rename_i ivs hivs
        split at h
        · exact absurd h (by simp)
        · rename_i vscene hvs
          split at h
          · exact absurd h (by simp)
          · split at h
            · exact absurd h (by simp)
            · split at h
              · exact absurd h (by simp)
              · rename_i meshes minA maxA hproc
                cases h
                have hinv := processNodes_inv nrm geometries vscene.nodes _ _ hproc
                  ⟨by simp, by simp⟩
                obtain ⟨hd1, hd2⟩ := hinv
                refine ⟨hd1, ?_⟩
                intro ⟨m, hm, hne⟩
                obtain ⟨v, hv⟩ := List.exists_mem_of_ne_nil _ hne
                obtain ⟨hlov, hhiv⟩ := hd2 m hm v hv
                exact ⟨V3.le_trans hlov hhiv, fun m hm v hv => hd2 m hm v hv⟩

theorem PResult.isOk_iff {α : Type} {r : PResult α} :
    r.isOk = true ↔ ∃ a, r = PResult.ok a := by
  cases r <;> simp [PResult.isOk]

/-- Claim C1: every Sub-mesh produced by any of the parsers (OBJ face
emission, STL ASCII, STL binary, COLLADA triangles/polylist resolution) has
an index count that is a multiple of 3, with every index strictly below its
vertex count. -/
theorem claim_C1_submesh_invariants :
    (∀ (nrm : V3 → V3) (lines : List ObjLine) (obj : Object ObjVertex),
      load_obj nrm lines = some obj → ∀ m ∈ obj.meshes, meshInv m) ∧
    (∀ (lines : List StlLine) (obj : Object Vertex),
      parse_ascii_stl lines = some obj → ∀ m ∈ obj.meshes, meshInv m) ∧
    (∀ (wmin wmax : W3 → W3 → W3) (bytes : List ℕ),
      ∀ m ∈ (parse_binary_stl wmin wmax bytes).meshes, meshInv m) ∧
    (∀ (nrm : V3 → V3) (root : ColladaDocument) (obj : Object Vertex),
      parse_dae nrm root = PResult.ok obj → ∀ m ∈ obj.meshes, meshInv m) :=
  ⟨load_obj_meshInv, parse_ascii_stl_meshInv, parse_binary_stl_meshInv,
   fun nrm root obj h => (parse_dae_ok_spec nrm root obj h).1⟩

/-- Witness for C1: concrete parses (an OBJ quad, one ASCII facet, a
truncated binary file, the demonstration COLLADA document) all satisfy the
Sub-mesh invariant. -/
theorem claim_C1_submesh_invariants_witness :
    (∃ obj, load_obj idV3 quadObjLines = some obj ∧ ∀ m ∈ obj.meshes, meshInv m) ∧
    (∃ obj, parse_ascii_stl oneFacetLines = some obj ∧ ∀ m ∈ obj.meshes, meshInv m) ∧
    (∀ m ∈ (parse_binary_stl (fun a _ => a) (fun a _ => a) truncatedStlBytes).meshes,
      meshInv m) ∧
    (∃ obj, parse_dae idV3 demoDaeDoc = PResult.ok obj ∧ ∀ m ∈ obj.meshes, meshInv m) := by
  refine ⟨?_, ?_, ?_, ?_⟩
  · have hsome : (load_obj idV3 quadObjLines).isSome = true := rfl
    obtain ⟨obj, hobj⟩ := Option.isSome_iff_exists.1 hsome
    exact ⟨obj, hobj, claim_C1_submesh_invariants.1 idV3 quadObjLines obj hobj⟩
  · have hsome : (parse_ascii_stl oneFacetLines).isSome = true := rfl
    obtain ⟨obj, hobj⟩ := Option.isSome_iff_exists.1 hsome
    exact ⟨obj, hobj, claim_C1_submesh_invariants.2.1 oneFacetLines obj hobj⟩
  · exact claim_C1_submesh_invariants.2.2.1 (fun a _ => a) (fun a _ => a) truncatedStlBytes
  · have hok : (parse_dae idV3 demoDaeDoc).isOk = true := rfl
    obtain ⟨obj, hobj⟩ := PResult.isOk_iff.1 hok
    exact ⟨obj, hobj, claim_C1_submesh_invariants.2.2.2 idV3 demoDaeDoc obj hobj⟩

/-! NaN-aware order lemmas. -/

theorem xfLe_refl {a : XF} (h : a ≠ XF.nan) : XF.le a a := by
  cases a with
  | nan => exact absurd rfl h
  | negInf => trivial
  | fin q => exact le_rfl
  | posInf => trivial

theorem xfLe_trans {a b c : XF} (h1 : XF.le a b) (h2 : XF.le b c) : XF.le a c := by
  cases a <;> cases b <;> cases c <;>
    simp only [XF.le] at h1 h2 ⊢ <;>
    first | trivial | exact le_trans h1 h2

theorem xfLe_total {a b : XF} (ha : a ≠ XF.nan) (hb : b ≠ XF.nan) :
    XF.le a b ∨ XF.le b a := by
  cases a <;> cases b <;>
    first
      | exact absurd rfl ha
      | exact absurd rfl hb
      | exact Or.inl True.intro
      | exact Or.inr True.intro
      | exact le_total _ _

theorem fminX_ne_nan {a : XF} (b : XF) (ha : a ≠ XF.nan) : fminX a b ≠ XF.nan := by
  cases a <;> cases b <;> simp only [fminX] <;>
    first
      | exact absurd rfl ha
      | (split <;> simp)
      | simp

theorem fmaxX_ne_nan {a : XF} (b : XF) (ha : a ≠ XF.nan) : fmaxX a b ≠ XF.nan := by
  cases a <;> cases b <;> simp only [fmaxX] <;>
    first
      | exact absurd rfl ha
      | (split <;> simp)
      | simp

theorem fminX_eq_ite {a b : XF} (ha : a ≠ XF.nan) (hb : b ≠ XF.nan) :
    fminX a b = if XF.le a b then a else b := by
  cases a <;> cases b <;>
    first
      | exact absurd rfl ha
      | exact absurd rfl hb
      | rfl

theorem fmaxX_eq_ite {a b : XF} (ha : a ≠ XF.nan) (hb : b ≠ XF.nan) :
    fmaxX a b = if XF.le a b then b else a := by
  cases a <;> cases b <;>
    first
      | exact absurd rfl ha
      | exact absurd rfl hb
      | rfl

theorem fminX_le_left {a b : XF} (ha : a ≠ XF.nan) (hb : b ≠ XF.nan) :
    XF.le (fminX a b) a := by
  rw [fminX_eq_ite ha hb]
  split
  · exact xfLe_refl ha
  · rename_i h
    exact (xfLe_total ha hb).resolve_left h

theorem fminX_le_right {a b : XF} (ha : a ≠ XF.nan) (hb : b ≠ XF.nan) :
    XF.le (fminX a b) b := by
  rw [fminX_eq_ite ha hb]
  split
  · rename_i h
    exact h
  · exact xfLe_refl hb

theorem le_fmaxX_left {a b : XF} (ha : a ≠ XF.nan) (hb : b ≠ XF.nan) :
    XF.le a (fmaxX a b) := by
  rw [fmaxX_eq_ite ha hb]
  split
  · rename_i h
    exact h
  · exact xfLe_refl ha

theorem le_fmaxX_right {a b : XF} (ha : a ≠ XF.nan) (hb : b ≠ XF.nan) :
    XF.le b (fmaxX a b) := by
  rw [fmaxX_eq_ite ha hb]
  split
  · exact xfLe_refl hb
  · rename_i h
    exact (xfLe_total ha hb).resolve_left h

theorem xv3Le_refl {a : XV3} (h : XV3.noNaN a) : XV3.le a a :=
  ⟨xfLe_refl h.1, xfLe_refl h.2.1, xfLe_refl h.2.2⟩

theorem xv3Le_trans {a b c : XV3} (h1 : XV3.le a b) (h2 : XV3.le b c) : XV3.le a c :=
  ⟨xfLe_trans h1.1 h2.1, xfLe_trans h1.2.1 h2.2.1, xfLe_trans h1.2.2 h2.2.2⟩

theorem compMinX_noNaN {a : XV3} (b : XV3) (ha : XV3.noNaN a) : XV3.noNaN (compMinX a b) :=
  ⟨fminX_ne_nan _ ha.1, fminX_ne_nan _ ha.2.1, fminX_ne_nan _ ha.2.2⟩

theorem compMaxX_noNaN {a : XV3} (b : XV3) (ha : XV3.noNaN a) : XV3.noNaN (compMaxX a b) :=
  ⟨fmaxX_ne_nan _ ha.1, fmaxX_ne_nan _ ha.2.1, fmaxX_ne_nan _ ha.2.2⟩

theorem compMinX_le_left {a b : XV3} (ha : XV3.noNaN a) (hb : XV3.noNaN b) :
    XV3.le (compMinX a b) a :=
  ⟨fminX_le_left ha.1 hb.1, fminX_le_left ha.2.1 hb.2.1, fminX_le_left ha.2.2 hb.2.2⟩

theorem compMinX_le_right {a b : XV3} (ha : XV3.noNaN a) (hb : XV3.noNaN b) :
    XV3.le (compMinX a b) b :=
  ⟨fminX_le_right ha.1 hb.1, fminX_le_right ha.2.1 hb.2.1, fminX_le_right ha.2.2 hb.2.2⟩

theorem le_compMaxX_left {a b : XV3} (ha : XV3.noNaN a) (hb : XV3.noNaN b) :
    XV3.le a (compMaxX a b) :=
  ⟨le_fmaxX_left ha.1 hb.1, le_fmaxX_left ha.2.1 hb.2.1, le_fmaxX_left ha.2.2 hb.2.2⟩

theorem le_compMaxX_right {a b : XV3} (ha : XV3.noNaN a) (hb : XV3.noNaN b) :
    XV3.le b (compMaxX a b) :=
  ⟨le_fmaxX_right ha.1 hb.1, le_fmaxX_right ha.2.1 hb.2.1, le_fmaxX_right ha.2.2 hb.2.2⟩

theorem boundsMonoX {lo hi lo' hi' p : XV3} (hlo : XV3.le lo' lo) (hhi : XV3.le hi hi')
    (h : XV3.le lo p ∧ XV3.le p hi) : XV3.le lo' p ∧ XV3.le p hi' :=
  ⟨xv3Le_trans hlo h.1, xv3Le_trans h.2 hhi⟩

/-- `foldOpt_inv` with the step hypothesis restricted to the traversed
elements. -/
theorem foldOpt_inv_mem {σ α : Type} (f : σ → α → Option σ) (P : σ → Prop) :
    ∀ (l : List α), (∀ s a s', a ∈ l → P s → f s a = some s' → P s') →
      ∀ (s s' : σ), P s → foldOpt f s l = some s' → P s' := by
  intro l
  induction l with
  | nil => intro _ s s' hP h; simp only [foldOpt] at h; cases h; exact hP
  | cons a l ih =>
    intro hstep s s' hP h
    simp only [foldOpt] at h
    cases hfa : f s a with
    | none => rw [hfa] at h; exact absurd h (by simp)
    | some s1 =>
      rw [hfa] at h
      exact ih (fun t a' t' ha' => hstep t a' t' (List.mem_cons_of_mem _ ha')) s1 s'
        (hstep s a s1 (List.mem_cons_self a l) hP hfa) h

/-! NaN-aware OBJ lemmas, mirroring the rational ones. -/

theorem updTBX_pos (vs : List ObjVertexX) (i : ℕ) (t b : XV3) :
    ∀ v' ∈ updTBX vs i t b, ∃ v ∈ vs, v'.position = v.position := by
  intro v' hv'
  unfold updTBX at hv'
  cases h : vs.get? i with
  | none => rw [h] at hv'; exact ⟨v', hv', rfl⟩
  | some w =>
    rw [h] at hv'
    rcases List.mem_or_eq_of_mem_set hv' with hmem | rfl
    · exact ⟨v', hmem, rfl⟩
    · exact ⟨w, List.get?_mem h, rfl⟩

theorem tangentStepX_pos (nrm : XV3 → XV3) (c : ℕ) (vs : List ObjVertexX) (i : ℕ) :
    ∀ v' ∈ tangentStepX nrm c vs i, ∃ v ∈ vs, v'.position = v.position := by
  intro v' hv'
  unfold tangentStepX at hv'
  rcases updTBX_pos _ _ _ _ _ hv' with ⟨v2, hv2, he2⟩
  rcases updTBX_pos _ _ _ _ _ hv2 with ⟨v1, hv1, he1⟩
  rcases updTBX_pos _ _ _ _ _ hv1 with ⟨v0, hv0, he0⟩
  exact ⟨v0, hv0, by rw [he2, he1, he0]⟩

theorem tangentPassX_pos (nrm : XV3 → XV3) (c n : ℕ) (vs : List ObjVertexX) :
    ∀ v' ∈ tangentPassX nrm c n vs, ∃ v ∈ vs, v'.position = v.position := by
  unfold tangentPassX
  generalize List.range (n - 2) = l
  induction l generalizing vs with
  | nil => intro v' hv'; exact ⟨v', hv', rfl⟩
  | cons i l ih =>
    intro v' hv'
    simp only [List.foldl_cons] at hv'
    rcases ih (tangentStepX nrm c vs i) v' hv' with ⟨v1, hv1, he1⟩
    rcases tangentStepX_pos nrm c vs i v1 hv1 with ⟨v0, hv0, he0⟩
    exact ⟨v0, hv0, by rw [he1, he0]⟩

theorem faceVertexX_pos (tv normals : List XV3) (tc : List XV2) (cn : XV3)
    (c : FaceRef) (v : ObjVertexX)
    (h : faceVertexX tv normals tc cn c = some v) : v.position ∈ tv := by
  cases c with
  | v vi =>
    simp only [faceVertexX, Option.bind_eq_bind, Option.bind_eq_some] at h
    rcases h with ⟨p, hp, hv⟩
    cases hv
    exact fetch_mem _ _ _ hp
  | vt vi ti =>
    simp only [faceVertexX, Option.bind_eq_bind, Option.bind_eq_some] at h
    rcases h with ⟨p, hp, t, ht, hv⟩
    cases hv
    exact fetch_mem _ _ _ hp
  | vtn vi ti ni =>
    simp only [faceVertexX, Option.bind_eq_bind, Option.bind_eq_some] at h
    rcases h with ⟨p, hp, t, ht, n, hn, hv⟩
    cases hv
    exact fetch_mem _ _ _ hp
  | vvn vi ni =>
    simp only [faceVertexX, Option.bind_eq_bind, Option.bind_eq_some] at h
    rcases h with ⟨p, hp, n, hn, hv⟩
    cases hv
    exact fetch_mem _ _ _ hp

theorem objFaceStepX_spec (nrm : XV3 → XV3) (st : ObjStateX) (corners : List FaceRef)
    (st' : ObjStateX) (hstep : objFaceStepX nrm st corners = some st') :
    (∀ v ∈ st'.vertices,
      (∃ w ∈ st.vertices, v.position = w.position) ∨ v.position ∈ st.tempVertices) ∧
    st'.tempVertices = st.tempVertices ∧ st'.meshes = st.meshes ∧
    st'.minAabb = st.minAabb ∧ st'.maxAabb = st.maxAabb := by
  unfold objFaceStepX at hstep
  split at hstep
  · exact absurd hstep (by simp)
  · rename_i hlen
    split at hstep
    · exact absurd hstep (by simp)
    · rename_i cn hcn
      split at hstep
      · exact absurd hstep (by simp)
      · rename_i newVerts hnv
        cases hstep
        refine ⟨?_, rfl, rfl, rfl, rfl⟩
        intro v hv
        rcases tangentPassX_pos nrm st.indicesCounter corners.length _ v hv with ⟨w, hw, he⟩
        rcases List.mem_append.1 hw with hw' | hw'
        · exact Or.inl ⟨w, hw', he⟩
        · rcases mapOpt_mem _ _ _ hnv w hw' with ⟨cref, _, hfv⟩
          exact Or.inr (he ▸ faceVertexX_pos _ _ _ _ _ _ hfv)

theorem flushMeshesX_cases (st : ObjStateX) (name : String) (m : ObjMesh ObjVertexX)
    (hm : m ∈ flushMeshesX st name) :
    m ∈ st.meshes ∨ m = ⟨name, st.vertices, st.indices, st.currentMaterial⟩ := by
  unfold flushMeshesX at hm
  split at hm
  · exact Or.inl hm
  · rcases List.mem_append.1 hm with h | h
    · exact Or.inl h
    · simp only [List.mem_singleton] at h
      exact Or.inr h

theorem objInvX_init : objInvX initObjStateX := by
  refine ⟨by decide, by decide, ?_, ?_, ?_⟩ <;> intro x hx <;> simp [initObjStateX] at hx

theorem objStepX_inv (nrm : XV3 → XV3) (st : ObjStateX) (line : ObjLineX) (st' : ObjStateX)
    (hstep : objStepX nrm st line = some st') (hline : lineNoNaN line)
    (hinv : objInvX st) : objInvX st' := by
  obtain ⟨hmn, hxn, h5, h6, h7⟩ := hinv
  have hflushBnd : ∀ name, ∀ m ∈ flushMeshesX st name, ∀ v ∈ m.vertices,
      XV3.le st.minAabb v.position ∧ XV3.le v.position st.maxAabb := by
    intro name m hm v hv
    rcases flushMeshesX_cases st name m hm with h | rfl
    · exact h7 m h v hv
    · exact h6 v hv
  cases line with
  | o name =>
    cases hstep
    exact ⟨hmn, hxn, h5, by simp, hflushBnd _⟩
  | g name =>
    cases hstep
    exact ⟨hmn, hxn, h5, by simp, hflushBnd _⟩
  | usemtl name =>
    cases hstep
    exact ⟨hmn, hxn, h5, by simp, hflushBnd _⟩
  | v x y z =>
    cases hstep
    obtain ⟨hx, hy, hz⟩ : x ≠ XF.nan ∧ y ≠ XF.nan ∧ z ≠ XF.nan := hline
    have hpn : XV3.noNaN ⟨x, y, z⟩ := ⟨hx, hy, hz⟩
    have hlo : XV3.le (compMinX st.minAabb ⟨x, y, z⟩) st.minAabb :=
      compMinX_le_left hmn hpn
    have hhi : XV3.le st.maxAabb (compMaxX st.maxAabb ⟨x, y, z⟩) :=
      le_compMaxX_left hxn hpn
    refine ⟨compMinX_noNaN _ hmn, compMaxX_noNaN _ hxn, ?_, ?_, ?_⟩
    · intro p hp
      rcases List.mem_append.1 hp with h | h
      · exact boundsMonoX hlo hhi (h5 p h)
      · simp only [List.mem_singleton] at h
        subst h
        exact ⟨compMinX_le_right hmn hpn, le_compMaxX_right hxn hpn⟩
    · intro v hv
      exact boundsMonoX hlo hhi (h6 v hv)
    · intro m hm v hv
      exact boundsMonoX hlo hhi (h7 m hm v hv)
  | vn x y z =>
    cases hstep
    exact ⟨hmn, hxn, h5, h6, h7⟩
  | vt u w =>
    cases hstep
    exact ⟨hmn, hxn, h5, h6, h7⟩
  | mtllib mats =>
    cases hstep
    exact ⟨hmn, hxn, h5, h6, h7⟩
  | pLine => cases hstep; exact ⟨hmn, hxn, h5, h6, h7⟩
  | lLine => cases hstep; exact ⟨hmn, hxn, h5, h6, h7⟩
  | sLine => cases hstep; exact ⟨hmn, hxn, h5, h6, h7⟩
  | unknown => cases hstep; exact ⟨hmn, hxn, h5, h6, h7⟩
  | f corners =>
    obtain ⟨hpos, htv, hms, hmin, hmax⟩ := objFaceStepX_spec nrm st corners st' hstep
    refine ⟨by rw [hmin]; exact hmn, by rw [hmax]; exact hxn, ?_, ?_, ?_⟩
    · rw [htv, hmin, hmax]
      exact h5
    · intro v hv
      rw [hmin, hmax]
      rcases hpos v hv with ⟨w, hw, he⟩ | hpool
      · exact he ▸ h6 w hw
      · exact h5 _ hpool
    · rw [hms, hmin, hmax]
      exact h7

theorem load_objX_spec (nrm : XV3 → XV3) (lines : List ObjLineX) (obj : ObjectX ObjVertexX)
    (h : load_objX nrm lines = some obj) (hnn : vLinesNoNaN lines) :
    ∃ st : ObjStateX, objInvX st ∧
      obj.meshes = st.meshes ++
        [⟨flushNameFinalX st, st.vertices, st.indices, st.currentMaterial⟩] ∧
      obj.aabb = ⟨st.minAabb, st.maxAabb⟩ := by
  unfold load_objX at h
  cases hfold : foldOpt (objStepX nrm) initObjStateX lines with
  | none => rw [hfold] at h; exact absurd h (by simp)
  | some st =>
    rw [hfold] at h
    cases h
    exact ⟨st, foldOpt_inv_mem _ objInvX lines
      (fun s a s' ha hP hf => objStepX_inv nrm s a s' hf (hnn a ha) hP)
      initObjStateX st objInvX_init hfold, rfl, rfl⟩

theorem load_objX_aabbInv (nrm : XV3 → XV3) (lines : List ObjLineX)
    (obj : ObjectX ObjVertexX)
    (h : load_objX nrm lines = some obj) (hnn : vLinesNoNaN lines) :
    aabbInvX ObjVertexX.position obj := by
  obtain ⟨st, ⟨hmn, hxn, h5, h6, h7⟩, hms, hab⟩ := load_objX_spec nrm lines obj h hnn
  have hbnd : ∀ m ∈ obj.meshes, ∀ v ∈ m.vertices,
      XV3.le st.minAabb v.position ∧ XV3.le v.position st.maxAabb := by
    intro m hm v hv
    rw [hms] at hm
    rcases List.mem_append.1 hm with hmem | hmem
    · exact h7 m hmem v hv
    · simp only [List.mem_singleton] at hmem
      subst hmem
      exact h6 v hv
  intro ⟨m, hm, hne⟩
  obtain ⟨v, hv⟩ := List.exists_mem_of_ne_nil _ hne
  obtain ⟨hlov, hhiv⟩ := hbnd m hm v hv
  rw [hab]
  exact ⟨xv3Le_trans hlov hhiv, fun m hm v hv => hbnd m hm v hv⟩

/-! NaN-aware ASCII STL lemmas. -/

theorem asciiInvX_init : asciiInvX initAsciiAccX := by
  refine ⟨by decide, by decide, ?_, ?_⟩ <;> intro x hx <;> simp [initAsciiAccX] at hx

theorem asciiStepX_inv (acc : AsciiAccX) (line : StlLineX) (acc' : AsciiAccX)
    (hstep : asciiStepX acc line = some acc') (hline : stlLineNoNaN line)
    (hinv : asciiInvX acc) : asciiInvX acc' := by
  obtain ⟨hmn, hxn, hcv, h4⟩ := hinv
  cases line with
  | normalLn x y z => cases hstep; exact ⟨hmn, hxn, hcv, h4⟩
  | vertexLn x y z =>
    cases hstep
    obtain ⟨hx, hy, hz⟩ : x ≠ XF.nan ∧ y ≠ XF.nan ∧ z ≠ XF.nan := hline
    refine ⟨hmn, hxn, ?_, h4⟩
    intro p hp
    rcases List.mem_append.1 hp with h | h
    · exact hcv p h
    · simp only [List.mem_singleton] at h
      subst h
      exact ⟨hx, hy, hz⟩
  | otherLn => cases hstep; exact ⟨hmn, hxn, hcv, h4⟩
  | endFacetLn =>
    simp only [asciiStepX] at hstep
    unfold asciiEmitX at hstep
    split at hstep
    · rename_i a b c rest heq
      cases hstep
      have ha : XV3.noNaN a := hcv a (by rw [heq]; simp)
      have hb : XV3.noNaN b := hcv b (by rw [heq]; simp)
      have hc : XV3.noNaN c := hcv c (by rw [heq]; simp)
      have hm1 : XV3.noNaN (compMinX acc.minAabb a) := compMinX_noNaN _ hmn
      have hm2 : XV3.noNaN (compMinX (compMinX acc.minAabb a) b) := compMinX_noNaN _ hm1
      have hm3 : XV3.noNaN (compMinX (compMinX (compMinX acc.minAabb a) b) c) :=
        compMinX_noNaN _ hm2
      have hx1 : XV3.noNaN (compMaxX acc.maxAabb a) := compMaxX_noNaN _ hxn
      have hx2 : XV3.noNaN (compMaxX (compMaxX acc.maxAabb a) b) := compMaxX_noNaN _ hx1
      have hx3 : XV3.noNaN (compMaxX (compMaxX (compMaxX acc.maxAabb a) b) c) :=
        compMaxX_noNaN _ hx2
      have hlo1 : XV3.le (compMinX (compMinX (compMinX acc.minAabb a) b) c) acc.minAabb :=
        xv3Le_trans (compMinX_le_left hm2 hc)
          (xv3Le_trans (compMinX_le_left hm1 hb) (compMinX_le_left hmn ha))
      have hhi1 : XV3.le acc.maxAabb (compMaxX (compMaxX (compMaxX acc.maxAabb a) b) c) :=
        xv3Le_trans (le_compMaxX_left hxn ha)
          (xv3Le_trans (le_compMaxX_left hx1 hb) (le_compMaxX_left hx2 hc))
      have hloa : XV3.le (compMinX (compMinX (compMinX acc.minAabb a) b) c) a :=
        xv3Le_trans (compMinX_le_left hm2 hc)
          (xv3Le_trans (compMinX_le_left hm1 hb) (compMinX_le_right hmn ha))
      have hlob : XV3.le (compMinX (compMinX (compMinX acc.minAabb a) b) c) b :=
        xv3Le_trans (compMinX_le_left hm2 hc) (compMinX_le_right hm1 hb)
      have hloc : XV3.le (compMinX (compMinX (compMinX acc.minAabb a) b) c) c :=
        compMinX_le_right hm2 hc
      have hhia : XV3.le a (compMaxX (compMaxX (compMaxX acc.maxAabb a) b) c) :=
        xv3Le_trans (le_compMaxX_right hxn ha)
          (xv3Le_trans (le_compMaxX_left hx1 hb) (le_compMaxX_left hx2 hc))
      have hhib : XV3.le b (compMaxX (compMaxX (compMaxX acc.maxAabb a) b) c) :=
        xv3Le_trans (le_compMaxX_right hx1 hb) (le_compMaxX_left hx2 hc)
      have hhic : XV3.le c (compMaxX (compMaxX (compMaxX acc.maxAabb a) b) c) :=
        le_compMaxX_right hx2 hc
      refine ⟨hm3, hx3, ?_, ?_⟩
      · intro p hp
        simp at hp
      · intro v hv
        rcases List.mem_append.1 hv with h | h
        · exact boundsMonoX hlo1 hhi1 (h4 v h)
        · simp only [List.mem_cons, List.not_mem_nil, or_false] at h
          rcases h with rfl | rfl | rfl
          · exact ⟨hloa, hhia⟩
          · exact ⟨hlob, hhib⟩
          · exact ⟨hloc, hhic⟩
    · exact absurd hstep (by simp)

theorem parse_ascii_stlX_spec (lines : List StlLineX) (obj : ObjectX VertexX)
    (h : parse_ascii_stlX lines = some obj) (hnn : vertexLinesNoNaN lines) :
    ∃ acc : AsciiAccX, asciiInvX acc ∧
      obj.meshes = [⟨"default_mesh", acc.vertices, acc.indices, some Material.defaultMat⟩] ∧
      obj.aabb = ⟨acc.minAabb, acc.maxAabb⟩ := by
  unfold parse_ascii_stlX at h
  cases hfold : foldOpt asciiStepX initAsciiAccX lines with
  | none => rw [hfold] at h; exact absurd h (by simp)
  | some acc =>
    rw [hfold] at h
    cases h
    exact ⟨acc, foldOpt_inv_mem _ asciiInvX lines
      (fun s a s' ha hP hf => asciiStepX_inv s a s' hf (hnn a ha) hP)
      initAsciiAccX acc asciiInvX_init hfold, rfl, rfl⟩

theorem parse_ascii_stlX_aabbInv (lines : List StlLineX) (obj : ObjectX VertexX)
    (h : parse_ascii_stlX lines = some obj) (hnn : vertexLinesNoNaN lines) :
    aabbInvX VertexX.position obj := by
  obtain ⟨acc, ⟨_, _, _, h4⟩, hms, hab⟩ := parse_ascii_stlX_spec lines obj h hnn
  intro ⟨m, hm, hne⟩
  rw [hms] at hm
  simp only [List.mem_singleton] at hm
  subst hm
  obtain ⟨v, hv⟩ := List.exists_mem_of_ne_nil _ hne
  obtain ⟨hlov, hhiv⟩ := h4 v hv
  rw [hab, hms]
  refine ⟨xv3Le_trans hlov hhiv, ?_⟩
  intro m hm w hw
  simp only [List.mem_singleton] at hm
  subst hm
  exact h4 w hw

/-! Word-level binary STL lemmas. -/

theorem wle_refl {a : ℕ} (h : wNoNaN a) : wle a a := xfLe_refl h

theorem wle_trans {a b c : ℕ} (h1 : wle a b) (h2 : wle b c) : wle a c := xfLe_trans h1 h2

theorem w3le_trans {a b c : W3} (h1 : w3le a b) (h2 : w3le b c) : w3le a c :=
  ⟨wle_trans h1.1 h2.1, wle_trans h1.2.1 h2.2.1, wle_trans h1.2.2 h2.2.2⟩

theorem f32minWord_eq_ite {a b : ℕ} (ha : wNoNaN a) (hb : wNoNaN b) :
    f32minWord a b = if XF.le (decodeF32 a) (decodeF32 b) then a else b := by
  unfold wNoNaN at ha hb
  unfold f32minWord
  cases hda : decodeF32 a <;> cases hdb : decodeF32 b <;>
    first
      | exact absurd hda ha
      | exact absurd hdb hb
      | rfl

theorem f32maxWord_eq_ite {a b : ℕ} (ha : wNoNaN a) (hb : wNoNaN b) :
    f32maxWord a b = if XF.le (decodeF32 a) (decodeF32 b) then b else a := by
  unfold wNoNaN at ha hb
  unfold f32maxWord
  cases hda : decodeF32 a <;> cases hdb : decodeF32 b <;>
    first
      | exact absurd hda ha
      | exact absurd hdb hb
      | rfl

theorem f32minWord_facts {a b : ℕ} (ha : wNoNaN a) (hb : wNoNaN b) :
    wNoNaN (f32minWord a b) ∧ wle (f32minWord a b) a ∧ wle (f32minWord a b) b := by
  rw [f32minWord_eq_ite ha hb]
  split
  · rename_i h
    exact ⟨ha, wle_refl ha, h⟩
  · rename_i h
    exact ⟨hb, (xfLe_total ha hb).resolve_left h, wle_refl hb⟩

theorem f32maxWord_facts {a b : ℕ} (ha : wNoNaN a) (hb : wNoNaN b) :
    wNoNaN (f32maxWord a b) ∧ wle a (f32maxWord a b) ∧ wle b (f32maxWord a b) := by
  rw [f32maxWord_eq_ite ha hb]
  split
  · rename_i h
    exact ⟨hb, h, wle_refl hb⟩
  · rename_i h
    exact ⟨ha, wle_refl ha, (xfLe_total ha hb).resolve_left h⟩

theorem foldl_f32min_facts (l : List ℕ) :
    ∀ init : ℕ, wNoNaN init → (∀ x ∈ l, wNoNaN x) →
      wNoNaN (l.foldl f32minWord init) ∧ wle (l.foldl f32minWord init) init ∧
      ∀ x ∈ l, wle (l.foldl f32minWord init) x := by
  induction l with
  | nil =>
    intro init hi _
    exact ⟨hi, wle_refl hi, by simp⟩
  | cons a l ih =>
    intro init hi hl
    have ha := hl a (List.mem_cons_self a l)
    obtain ⟨h1, h2, h3⟩ := f32minWord_facts hi ha
    obtain ⟨g1, g2, g3⟩ := ih (f32minWord init a) h1
      (fun x hx => hl x (List.mem_cons_of_mem a hx))
    simp only [List.foldl_cons]
    refine ⟨g1, wle_trans g2 h2, ?_⟩
    intro x hx
    rcases List.mem_cons.1 hx with rfl | hx'
    · exact wle_trans g2 h3
    · exact g3 x hx'

theorem foldl_f32max_facts (l : List ℕ) :
    ∀ init : ℕ, wNoNaN init → (∀ x ∈ l, wNoNaN x) →
      wNoNaN (l.foldl f32maxWord init) ∧ wle init (l.foldl f32maxWord init) ∧
      ∀ x ∈ l, wle x (l.foldl f32maxWord init) := by
  induction l with
  | nil =>
    intro init hi _
    exact ⟨hi, wle_refl hi, by simp⟩
  | cons a l ih =>
    intro init hi hl
    have ha := hl a (List.mem_cons_self a l)
    obtain ⟨h1, h2, h3⟩ := f32maxWord_facts hi ha
    obtain ⟨g1, g2, g3⟩ := ih (f32maxWord init a) h1
      (fun x hx => hl x (List.mem_cons_of_mem a hx))
    simp only [List.foldl_cons]
    refine ⟨g1, wle_trans h2 g2, ?_⟩
    intro x hx
    rcases List.mem_cons.1 hx with rfl | hx'
    · exact wle_trans h3 g2
    · exact g3 x hx'

theorem foldl_wmin_proj (l : List BVertex) : ∀ init : W3,
    l.foldl (fun m v => wminW3 m v.position) init
      = ((l.map fun v => v.position.1).foldl f32minWord init.1,
         (l.map fun v => v.position.2.1).foldl f32minWord init.2.1,
         (l.map fun v => v.position.2.2).foldl f32minWord init.2.2) := by
  induction l with
  | nil => intro init; rfl
  | cons a l ih =>
    intro init
    simp only [List.foldl_cons, List.map_cons]
    exact ih _

theorem foldl_wmax_proj (l : List BVertex) : ∀ init : W3,
    l.foldl (fun m v => wmaxW3 m v.position) init
      = ((l.map fun v => v.position.1).foldl f32maxWord init.1,
         (l.map fun v => v.position.2.1).foldl f32maxWord init.2.1,
         (l.map fun v => v.position.2.2).foldl f32maxWord init.2.2) := by
  induction l with
  | nil => intro init; rfl
  | cons a l ih =>
    intro init
    simp only [List.foldl_cons, List.map_cons]
    exact ih _

theorem num_toNat_natCast (n : ℕ) : ((n : ℚ)).num.toNat = n := by
  simp

/-- Order facts of the binary path's AABB fold over any vertex list with
NaN-free positions. -/
theorem binary_fold_bounds (vs : List BVertex) (hvs : ∀ v ∈ vs, w3NoNaN v.position) :
    ∀ v ∈ vs,
      w3le (vs.foldl (fun m v => wminW3 m v.position) (f32MaxBits, f32MaxBits, f32MaxBits))
        v.position ∧
      w3le v.position
        (vs.foldl (fun m v => wmaxW3 m v.position) (f32MinBits, f32MinBits, f32MinBits)) := by
  intro v hv
  rw [foldl_wmin_proj, foldl_wmax_proj]
  have hsn : wNoNaN f32MaxBits := by decide
  have hsx : wNoNaN f32MinBits := by decide
  have h1el : ∀ x ∈ vs.map fun v => v.position.1, wNoNaN x := by
    intro x hx
    rcases List.mem_map.1 hx with ⟨w, hw, rfl⟩
    exact (hvs w hw).1
  have h2el : ∀ x ∈ vs.map fun v => v.position.2.1, wNoNaN x := by
    intro x hx
    rcases List.mem_map.1 hx with ⟨w, hw, rfl⟩
    exact (hvs w hw).2.1
  have h3el : ∀ x ∈ vs.map fun v => v.position.2.2, wNoNaN x := by
    intro x hx
    rcases List.mem_map.1 hx with ⟨w, hw, rfl⟩
    exact (hvs w hw).2.2
  obtain ⟨_, _, hmin1⟩ := foldl_f32min_facts _ f32MaxBits hsn h1el
  obtain ⟨_, _, hmin2⟩ := foldl_f32min_facts _ f32MaxBits hsn h2el
  obtain ⟨_, _, hmin3⟩ := foldl_f32min_facts _ f32MaxBits hsn h3el
  obtain ⟨_, _, hmax1⟩ := foldl_f32max_facts _ f32MinBits hsx h1el
  obtain ⟨_, _, hmax2⟩ := foldl_f32max_facts _ f32MinBits hsx h2el
  obtain ⟨_, _, hmax3⟩ := foldl_f32max_facts _ f32MinBits hsx h3el
  exact ⟨⟨hmin1 _ (List.mem_map_of_mem _ hv), hmin2 _ (List.mem_map_of_mem _ hv),
          hmin3 _ (List.mem_map_of_mem _ hv)⟩,
         ⟨hmax1 _ (List.mem_map_of_mem _ hv), hmax2 _ (List.mem_map_of_mem _ hv),
          hmax3 _ (List.mem_map_of_mem _ hv)⟩⟩

/-- The binary STL parser, run with the actual word-level `glm::min` /
`glm::max`, satisfies the AABB invariant in the decoded `f32` order whenever
no emitted vertex-position word is a NaN bit pattern. -/
theorem parse_binary_stl_aabbX (bytes : List ℕ)
    (hnn : ∀ m ∈ (parse_binary_stl wminW3 wmaxW3 bytes).meshes, ∀ v ∈ m.vertices,
      w3NoNaN v.position)
    (hne : ∃ m ∈ (parse_binary_stl wminW3 wmaxW3 bytes).meshes, m.vertices ≠ []) :
    w3le (v3Words (parse_binary_stl wminW3 wmaxW3 bytes).aabb.min)
        (v3Words (parse_binary_stl wminW3 wmaxW3 bytes).aabb.max) ∧
    ∀ m ∈ (parse_binary_stl wminW3 wmaxW3 bytes).meshes, ∀ v ∈ m.vertices,
      w3le (v3Words (parse_binary_stl wminW3 wmaxW3 bytes).aabb.min) v.position ∧
      w3le v.position (v3Words (parse_binary_stl wminW3 wmaxW3 bytes).aabb.max) := by
  dsimp only [parse_binary_stl, v3Words] at hnn hne ⊢
  simp only [List.mem_singleton, forall_eq, exists_eq_left] at hnn hne ⊢
  simp only [num_toNat_natCast]
  have hb := binary_fold_bounds _ hnn
  obtain ⟨v0, hv0⟩ := List.exists_mem_of_ne_nil _ hne
  obtain ⟨hlo0, hhi0⟩ := hb v0 hv0
  exact ⟨w3le_trans hlo0 hhi0, hb⟩

/-- C2 counterexample input `v nan 0 0` / `f 1 1 1`: the parse succeeds with
one Sub-mesh of 3 vertices, yet the AABB keeps its sentinels on the NaN
component (`min.x = f32::MAX`, `max.x = f32::MIN`), `min ≤ max` is false, and
the vertices do not lie within `[min, max]` — the claim fails on this parsed
Object. -/
theorem claim_C2_counterexample :
    (load_objX idXV3 nanObjLines).map (fun o => o.meshes.map fun m => m.vertices.length)
      = some [3] ∧
    (load_objX idXV3 nanObjLines).map (fun o => o.aabb.min.x) = some (XF.fin f32Max) ∧
    (load_objX idXV3 nanObjLines).map (fun o => o.aabb.max.x) = some (XF.fin f32Min) ∧
    (load_objX idXV3 nanObjLines).map
      (fun o => decide (XV3.le o.aabb.min o.aabb.max)) = some false ∧
    (load_objX idXV3 nanObjLines).map
      (fun o => decide (∀ m ∈ o.meshes, ∀ v ∈ m.vertices,
        XV3.le o.aabb.min v.position ∧ XV3.le v.position o.aabb.max)) = some false := by
  exact ⟨rfl, rfl, rfl, rfl, rfl⟩

/-- Amended C2: for every parsed Object with at least one vertex, PROVIDED no
vertex-position coordinate is NaN, the accumulated AABB satisfies `min ≤ max`
componentwise and bounds every Sub-mesh vertex position: proved for the OBJ
and ASCII STL paths over the NaN-aware scalar domain (infinities included),
for the binary STL path at the level of IEEE-754 words with the word-level
`glm::min`/`glm::max` and the decoded order, and for the COLLADA path over
the rational embedding (its NaN-free finite scalar fragment). -/
theorem claim_C2_amended_no_nan :
    (∀ (nrmX : XV3 → XV3) (lines : List ObjLineX) (obj : ObjectX ObjVertexX),
      load_objX nrmX lines = some obj → vLinesNoNaN lines →
      aabbInvX ObjVertexX.position obj) ∧
    (∀ (lines : List StlLineX) (obj : ObjectX VertexX),
      parse_ascii_stlX lines = some obj → vertexLinesNoNaN lines →
      aabbInvX VertexX.position obj) ∧
    (∀ bytes : List ℕ,
      (∀ m ∈ (parse_binary_stl wminW3 wmaxW3 bytes).meshes, ∀ v ∈ m.vertices,
        w3NoNaN v.position) →
      (∃ m ∈ (parse_binary_stl wminW3 wmaxW3 bytes).meshes, m.vertices ≠ []) →
      w3le (v3Words (parse_binary_stl wminW3 wmaxW3 bytes).aabb.min)
          (v3Words (parse_binary_stl wminW3 wmaxW3 bytes).aabb.max) ∧
      ∀ m ∈ (parse_binary_stl wminW3 wmaxW3 bytes).meshes, ∀ v ∈ m.vertices,
        w3le (v3Words (parse_binary_stl wminW3 wmaxW3 bytes).aabb.min) v.position ∧
        w3le v.position (v3Words (parse_binary_stl wminW3 wmaxW3 bytes).aabb.max)) ∧
    (∀ (nrm : V3 → V3) (root : ColladaDocument) (obj : Object Vertex),
      parse_dae nrm root = PResult.ok obj → aabbInv Vertex.position obj) :=
  ⟨load_objX_aabbInv, parse_ascii_stlX_aabbInv, parse_binary_stl_aabbX,
   fun nrm root obj h => (parse_dae_ok_spec nrm root obj h).2⟩

/-- Witness for amended C2 at concrete NaN-free parses of each format. -/
theorem claim_C2_amended_no_nan_witness :
    (∃ obj, load_objX idXV3 quadObjLinesX = some obj ∧ aabbInvX ObjVertexX.position obj) ∧
    (∃ obj, parse_ascii_stlX oneFacetLinesX = some obj ∧ aabbInvX VertexX.position obj) ∧
    w3le (v3Words (parse_binary_stl wminW3 wmaxW3 oneTriStlBytes).aabb.min)
        (v3Words (parse_binary_stl wminW3 wmaxW3 oneTriStlBytes).aabb.max) ∧
    (∃ obj, parse_dae idV3 demoDaeDoc = PResult.ok obj ∧ aabbInv Vertex.position obj) := by
  refine ⟨?_, ?_, ?_, ?_⟩
  · have hsome : (load_objX idXV3 quadObjLinesX).isSome = true := rfl
    obtain ⟨obj, hobj⟩ := Option.isSome_iff_exists.1 hsome
    exact ⟨obj, hobj, claim_C2_amended_no_nan.1 idXV3 quadObjLinesX obj hobj (by decide)⟩
  · have hsome : (parse_ascii_stlX oneFacetLinesX).isSome = true := rfl
    obtain ⟨obj, hobj⟩ := Option.isSome_iff_exists.1 hsome
    exact ⟨obj, hobj, claim_C2_amended_no_nan.2.1 oneFacetLinesX obj hobj (by decide)⟩
  · exact (claim_C2_amended_no_nan.2.2.1 oneTriStlBytes (by decide) (by decide)).1
  · have hok : (parse_dae idV3 demoDaeDoc).isOk = true := rfl
    obtain ⟨obj, hobj⟩ := PResult.isOk_iff.1 hok
    exact ⟨obj, hobj, claim_C2_amended_no_nan.2.2.2 idV3 demoDaeDoc obj hobj⟩

/-- Amended C4: in both COLLADA primitive paths, the POSITION index of corner
`j` is read at stream position `j * max_offset` (offset 0 assumed), while a
NORMAL (or TEXCOORD) input's index is read once per triangle/face at position
`semantic_offset` within that face's chunk — effectively corner 0's slot —
and the one resolved value is shared by all corners of the triangle/face. -/
theorem claim_C4_amended_shared_semantics :
    (∀ (nOff : ℤ) (maxOff : ℕ) (normals : List V3) (tOff : ℤ)
        (texCoords : List V2) (positions : List V3) (ch : List ℕ)
        (verts : List Vertex),
      triChunkVerts nOff maxOff normals tOff texCoords positions ch = some verts →
        verts.length = 3 ∧
        (∀ j, j < 3 → ∃ v pidx, verts.get? j = some v ∧
          ch.get? (j * maxOff) = some pidx ∧ positions.get? pidx = some v.position) ∧
        (∀ v ∈ verts, ∀ w ∈ verts, v.normal = w.normal ∧ v.texCoords = w.texCoords) ∧
        (nOff ≠ -1 → ∃ nidx nv, ch.get? nOff.toNat = some nidx ∧
          normals.get? nidx = some nv ∧ ∀ v ∈ verts, v.normal = nv)) ∧
    (∀ (nrm : V3 → V3) (positions normals : List V3) (texCoords : List V2)
        (nOff tOff : ℤ) (maxOff : ℕ) (p : List ℤ)
        (acc : List Vertex × List ℕ × ℕ × ℕ) (vcount : ℕ)
        (out : List Vertex × List ℕ × ℕ × ℕ),
      polylistFace nrm positions normals texCoords nOff tOff maxOff p acc vcount
          = some out →
        out.1.length = acc.1.length + vcount ∧
        (∀ v ∈ out.1.drop acc.1.length, ∀ w ∈ out.1.drop acc.1.length,
          v.normal = w.normal ∧ v.texCoords = w.texCoords) ∧
        (∀ j, j < vcount → ∃ v pidx,
          out.1.get? (acc.1.length + j) = some v ∧
          ((p.drop acc.2.2.1).take (vcount * maxOff)).get? (j * maxOff) = some pidx ∧
          fetch positions (resolveDae positions.length pidx) = some v.position) ∧
        (nOff ≠ -1 → ∃ nidx nv,
          ((p.drop acc.2.2.1).take (vcount * maxOff)).get? nOff.toNat = some nidx ∧
          fetch normals (resolveDae normals.length nidx) = some nv ∧
          ∀ v ∈ out.1.drop acc.1.length, v.normal = nv)) := by
  constructor
  · intro nOff maxOff normals tOff texCoords positions ch verts h
    obtain ⟨h1, _, h3, h4, h5⟩ := triChunkVerts_spec nOff maxOff normals tOff
      texCoords positions ch verts h
    exact ⟨h1, h3, h4, h5⟩
  · intro nrm positions normals texCoords nOff tOff maxOff p acc vcount out h
    obtain ⟨vs, ixs, skipBy, counter⟩ := acc
    unfold polylistFace at h
    dsimp only at h ⊢
    split at h
    · exact absurd h (by simp)
    · rename_i poly hpoly
      split at hpoly
      · rename_i hle
        cases hpoly
        split at h
        · exact absurd h (by simp)
        · rename_i norm hnorm
          split at h
          · exact absurd h (by simp)
          · rename_i texc htexc
            split at h
            · exact absurd h (by simp)
            · rename_i newVs hnew
              split at h
              · exact absurd h (by simp)
              · rename_i hv2
                cases h
                have hnewlen : newVs.length = vcount := by
                  have := mapOpt_length _ _ _ hnew
                  simpa using this
                have hmem : ∀ v ∈ newVs, v.normal = norm ∧ v.texCoords = texc := by
                  intro v hv
                  obtain ⟨j, _, hfj⟩ := mapOpt_mem _ _ _ hnew v hv
                  split at hfj
                  · exact absurd hfj (by simp)
                  · rename_i pidx hpidx
                    split at hfj
                    · exact absurd hfj (by simp)
                    · rename_i pos hpos
                      cases hfj
                      exact ⟨rfl, rfl⟩
                have hdrop : (vs ++ newVs).drop vs.length = newVs := by
                  rw [List.drop_left]
                refine ⟨?_, ?_, ?_, ?_⟩
                · simp [hnewlen]
                · rw [hdrop]
                  intro v hv w hw
                  exact ⟨(hmem v hv).1.trans (hmem w hw).1.symm,
                    (hmem v hv).2.trans (hmem w hw).2.symm⟩
                · intro j hj
                  have hget : (vs ++ newVs).get? (vs.length + j) = newVs.get? j := by
                    rw [List.get?_append_right (by omega)]
                    congr 1
                    omega
                  have hg := mapOpt_get? _ _ _ hnew j (by simpa using hj)
                  rw [List.get?_range hj] at hg
                  simp only [Option.some_bind] at hg
                  cases hv : newVs.get? j with
                  | none =>
                    have := List.get?_eq_none.1 hv
                    omega
                  | some v =>
                    rw [hv] at hg
                    split at hg
                    · exact absurd hg (by simp)
                    · rename_i pidx hpidx
                      split at hg
                      · exact absurd hg (by simp)
                      · rename_i pos hpos
                        cases hg
                        exact ⟨_, pidx, by rw [hget]; exact hv, hpidx, hpos⟩
                · intro hne
                  unfold polylistNorm at hnorm
                  rw [if_pos hne] at hnorm
                  split at hnorm
                  · exact absurd hnorm (by simp)
                  · rename_i nidx hnidx
                    exact ⟨nidx, norm, hnidx, hnorm, by
                      rw [hdrop]
                      intro v hv
                      exact (hmem v hv).1⟩
      · exact absurd hpoly (by simp)

/-- Witness for the amended C4 at the concrete demonstration chunk (normal
input at offset 1, `max_offset = 2`, chunk `[0, 0, 1, 1, 2, 2]`): three
corners, all sharing the normal resolved from the chunk's entry at position
1, and corner positions read at `0, 2, 4`. -/
theorem claim_C4_amended_shared_semantics_witness :
    ∃ verts, triChunkVerts 1 2 (chunks3 [1, 0, 0, 0, 1, 0, 0, 0, 1]) (-1) []
        demoPositions [0, 0, 1, 1, 2, 2] = some verts ∧
      verts.length = 3 ∧
      (∀ v ∈ verts, ∀ w ∈ verts, v.normal = w.normal ∧ v.texCoords = w.texCoords) := by
  have hsome : (triChunkVerts 1 2 (chunks3 [1, 0, 0, 0, 1, 0, 0, 0, 1]) (-1) []
      demoPositions [0, 0, 1, 1, 2, 2]).isSome = true := rfl
  obtain ⟨verts, hverts⟩ := Option.isSome_iff_exists.1 hsome
  obtain ⟨h1, _, h3, _⟩ := claim_C4_amended_shared_semantics.1 1 2
    (chunks3 [1, 0, 0, 0, 1, 0, 0, 0, 1]) (-1) [] demoPositions
    [0, 0, 1, 1, 2, 2] verts hverts
  exact ⟨verts, hverts, h1, h3⟩

end Tdobs
